import Mathlib

/-!
Shallow embedding of the bedsheet orchestration engine
(`src/bedsheet/agent.py`, `src/bedsheet/supervisor.py`,
`src/bedsheet/events.py`, `src/bedsheet/memory/in_memory.py`).

Modelling conventions:
* Python coroutines/async generators are embedded as pure functions producing
  a list of `Step`s: each yielded event becomes a `Step.ev`, each
  `memory.add_messages` call becomes a `Step.write`, and each model-backend
  call (`model_client.chat`) becomes a ghost `Step.modelCall` marker tagged
  with the calling agent's name and recording the message history passed to
  the backend.  `asyncio.gather` returns results in argument order, so the
  fan-out/fan-in of tool calls and delegation branches is deterministic when
  observed from the event stream, which is what these claims are about.
* The model backend is a function `Client : List Message → LLMResponse`
  (the response may depend on the history passed to `chat`; the system
  prompt and tool catalog arguments are not modelled since no claim depends
  on them).  The embedding covers the `stream=False` code path of
  `Agent.invoke`.
* Python string truthiness (`if response.text`, `if error`) is modelled by
  `pyStrTruthy`; `json.dumps` applied to a `dict[str, str]` is modelled by
  the executable `jsonDumpsMap` (insertion-ordered keys, the separators
  Python uses, quote/backslash escaping).
-/

namespace Bedsheet

/-- `{agent_name, task}` record inside a delegate call's `delegations` array. -/
structure DelegationRec where
  agent_name : String
  task : String
deriving DecidableEq, Repr

/-- The input dict of a model-requested tool call, with the keys the engine
reads (`agent_name`, `task`, `delegations`).  Generic tools receive the whole
input value. -/
structure ToolInput where
  agent_name : Option String := none
  task : Option String := none
  delegations : Option (List DelegationRec) := none
deriving DecidableEq, Repr

/-- `ToolCall` from `bedsheet/llm/base.py`: `{id, name, input}`. -/
structure ToolCall where
  id : String
  name : String
  input : ToolInput
deriving DecidableEq, Repr

/-- `Message` from `bedsheet/memory/base.py`. -/
structure Message where
  role : String
  content : Option String
  tool_calls : Option (List ToolCall) := none
  tool_call_id : Option String := none
deriving DecidableEq, Repr

/-- `LLMResponse` restricted to the fields `Agent.invoke` reads. -/
structure LLMResponse where
  text : Option String
  tool_calls : List ToolCall
deriving DecidableEq, Repr

/-- A Python value returned by a tool: either a `str`, or a `dict[str, str]`
(the shape the delegate tool's parallel branch produces). -/
inductive RVal where
  | str (s : String)
  | mapStr (m : List (String × String))
deriving DecidableEq, Repr

/-- Python string truthiness of an `Optional[str]`. -/
def pyStrTruthy : Option String → Bool
  | none => false
  | some s => !(s == "")

/-- JSON string escaping (quote and backslash; enough for the engine's data). -/
def jsonEscape (s : String) : String :=
  String.join (s.data.map fun c =>
    if c = '\\' then "\\\\"
    else if c = '"' then "\\\""
    else String.singleton c)

/-- `json.dumps` on a `dict[str, str]` in insertion order. -/
def jsonDumpsMap (m : List (String × String)) : String :=
  "\x7b" ++ String.intercalate ", "
    (m.map fun p => "\"" ++ jsonEscape p.1 ++ "\": \"" ++ jsonEscape p.2 ++ "\"")
  ++ "\x7d"

/-- `json.dumps(result) if not isinstance(result, str) else result`, applied to
an optional tool result (`json.dumps(None) = "null"`). -/
def dumpsVal : Option RVal → String
  | some (.str s) => s
  | some (.mapStr m) => jsonDumpsMap m
  | none => "null"

/-- The closed set of event variants from `bedsheet/events.py` that the
conversation engine and the delegation orchestrator emit. -/
inductive Event where
  | toolCall (tool_name : String) (tool_input : ToolInput) (call_id : String)
  | toolResult (call_id : String) (result : Option RVal) (error : Option String)
  | completion (response : String)
  | error (error : String) (recoverable : Bool)
  | textToken (token : String)
  | routing (agent_name : String) (task : String)
  | delegation (delegations : List DelegationRec)
  | collaboratorStart (agent_name : String) (task : String)
  | collaborator (agent_name : String) (inner : Event)
  | collaboratorComplete (agent_name : String) (response : String)
deriving DecidableEq, Repr

/-- One observable step of an invocation: a yielded event, an
`add_messages(session_id, msgs)` call, or a ghost marker for a model-backend
call made by the agent named `agent` with the given history. -/
inductive Step where
  | ev (e : Event)
  | write (session_id : String) (msgs : List Message)
  | modelCall (agent : String) (msgs : List Message)
deriving DecidableEq, Repr

/-- The model backend: `chat` as a function of the message history. -/
def Client : Type := List Message → LLMResponse

/-- A registered action: name plus the callable (`Except.error` models the
callable raising). -/
structure Action where
  name : String
  fn : ToolInput → Except String RVal

/-- `Agent.get_action`: first action group containing the name wins
(flattened to one list). -/
def getAction (actions : List Action) (n : String) : Option Action :=
  actions.find? (fun a => a.name == n)

/-- The `execute_tool` closure inside `Agent.invoke`: returns
`(call_id, result, error)`. -/
def executeTool (actions : List Action) (tc : ToolCall) :
    String × Option RVal × Option String :=
  match getAction actions tc.name with
  | none => (tc.id, none, some ("Unknown action: " ++ tc.name))
  | some a =>
    match a.fn tc.input with
    | .ok r => (tc.id, some r, none)
    | .error e => (tc.id, none, some e)

/-- `content = f"Error: {error}" if error else (json.dumps(result) if not
isinstance(result, str) else result)`. -/
def toolResultContent (result : Option RVal) (error : Option String) : String :=
  if pyStrTruthy error then "Error: " ++ error.getD ""
  else dumpsVal result

/-- The tool-result `Message` appended for one completed call. -/
def toolResultMessage (r : String × Option RVal × Option String) : Message :=
  { role := "tool_result", content := some (toolResultContent r.2.1 r.2.2),
    tool_call_id := some r.1 }

/-- The assistant message recording a tool-call batch. -/
def assistantToolMessage (tcs : List ToolCall) : Message :=
  { role := "assistant", content := none, tool_calls := some tcs }

/-- `f"Max iterations ({max_iterations}) exceeded"`. -/
def maxIterationsMessage (n : Nat) : String :=
  "Max iterations (" ++ toString n ++ ") exceeded"

/-- The main loop of `Agent.invoke` (agent.py lines 115–214), `stream=False`
path, with the remaining iteration budget as fuel. -/
def agentLoop (name : String) (client : Client) (actions : List Action)
    (maxIter : Nat) (session_id : String) :
    List Message → List Message → Nat → List Step
  | _, _, 0 => [.ev (.error (maxIterationsMessage maxIter) false)]
  | messages, new_messages, fuel + 1 =>
    let response := client messages
    Step.modelCall name messages ::
    (if pyStrTruthy response.text && response.tool_calls.isEmpty then
      let t := response.text.getD ""
      let am : Message := { role := "assistant", content := some t }
      [.write session_id (new_messages ++ [am]), .ev (.completion t)]
    else if !response.tool_calls.isEmpty then
      let am := assistantToolMessage response.tool_calls
      let callEvs := response.tool_calls.map
        (fun tc => Step.ev (.toolCall tc.name tc.input tc.id))
      let results := response.tool_calls.map (executeTool actions)
      let resultEvs := results.map
        (fun r => Step.ev (.toolResult r.1 r.2.1 r.2.2))
      let resultMsgs := results.map toolResultMessage
      callEvs ++ resultEvs ++
        agentLoop name client actions maxIter session_id
          (messages ++ [am] ++ resultMsgs) (new_messages ++ [am] ++ resultMsgs)
          fuel
    else
      agentLoop name client actions maxIter session_id messages new_messages fuel)

/-- The user message appended at the start of an invocation. -/
def userMessage (input_text : String) : Message :=
  { role := "user", content := some input_text }

/-- `Agent.invoke` for a configured model client: append the user message to
the fetched history and run the loop. -/
def agentRun (name : String) (client : Client) (actions : List Action)
    (maxIter : Nat) (session_id input_text : String)
    (history : List Message) : List Step :=
  agentLoop name client actions maxIter session_id
    (history ++ [userMessage input_text]) [userMessage input_text] maxIter

/-- Agent construction data, with the optional model client
(`Agent.__init__`). -/
structure AgentCfg where
  name : String
  instruction : String
  model_client : Option Client
  actions : List Action
  max_iterations : Nat := 10

/-- The `RuntimeError` message raised by `Agent.invoke` when no model client
is configured. -/
def noClientMessage (name : String) : String :=
  "Agent '" ++ name ++ "' has no model_client configured. " ++
  "Either pass a model_client when creating the agent, or use " ++
  "'bedsheet deploy --target <target>' to inject the appropriate client."

/-- `Agent.invoke` including the model-client guard: `Except.error` models the
`RuntimeError` raised before any event is yielded or memory touched. -/
def agentInvoke (cfg : AgentCfg) (session_id input_text : String)
    (history : List Message) : Except String (List Step) :=
  match cfg.model_client with
  | none => .error (noClientMessage cfg.name)
  | some client =>
      .ok (agentRun cfg.name client cfg.actions cfg.max_iterations
        session_id input_text history)

/-- Events yielded by a step trace (what the caller's `async for` sees). -/
def stepsEvents (steps : List Step) : List Event :=
  steps.filterMap (fun s => match s with | .ev e => some e | _ => none)

/-- The `add_messages` calls of a trace, in order. -/
def stepsWrites (steps : List Step) : List (String × List Message) :=
  steps.filterMap (fun s => match s with | .write sid ms => some (sid, ms) | _ => none)

/-- Number of model-backend calls made by the agent named `who`. -/
def countModelCalls (who : String) (steps : List Step) : Nat :=
  steps.countP (fun s => match s with | .modelCall a _ => a == who | _ => false)

/-- Whether an event is a terminal-or-recoverable error event. -/
def isErrorEvent : Event → Bool
  | .error _ _ => true
  | _ => false

/-- Whether an event is a (bare, unwrapped) collaborator-start event. -/
def isCollabStartEvent : Event → Bool
  | .collaboratorStart _ _ => true
  | _ => false

/-- Whether an event is a (bare, unwrapped) collaborator-complete event. -/
def isCollabCompleteEvent : Event → Bool
  | .collaboratorComplete _ _ => true
  | _ => false

/-- Number of collaborator-start events in a trace. -/
def countCollabStarts (steps : List Step) : Nat :=
  (stepsEvents steps).countP isCollabStartEvent

/-- Number of collaborator-complete events in a trace. -/
def countCollabCompletes (steps : List Step) : Nat :=
  (stepsEvents steps).countP isCollabCompleteEvent

/-! ## Supervisor (`bedsheet/supervisor.py`) -/

/-- One collaborator agent as held by a `Supervisor`: its configuration plus
its own memory's `get_messages` (per session id). -/
structure CollabAgent where
  name : String
  client : Client
  actions : List Action
  max_iterations : Nat := 10
  history : String → List Message := fun _ => []

/-- `self.collaborators = {agent.name: agent for agent in collaborators}`:
lookup where the last agent with a given name wins. -/
def dictGet (cs : List CollabAgent) (n : String) : Option CollabAgent :=
  cs.reverse.find? (fun c => c.name == n)

/-- Python dict key order: first-insertion order, duplicates dropped. -/
def dedupKeys : List String → List String
  | [] => []
  | x :: xs => x :: (dedupKeys xs).filter (fun y => !(y == x))

/-- `list(self.collaborators.keys())`. -/
def collabKeys (cs : List CollabAgent) : List String :=
  dedupKeys (cs.map (fun c => c.name))

/-- Python `repr` of a list of strings, as interpolated into the
`"Unknown agent"` f-strings. -/
def pyListRepr (xs : List String) : String :=
  "[" ++ String.intercalate ", " (xs.map (fun s => "'" ++ s ++ "'")) ++ "]"

/-- `f"Unknown agent: {agent_name}. Available: {list(self.collaborators.keys())}"`. -/
def unknownAgentMessage (cs : List CollabAgent) (agent_name : String) : String :=
  "Unknown agent: " ++ agent_name ++ ". Available: " ++ pyListRepr (collabKeys cs)

/-- The collaborator's final response as folded over its event stream inside
`_execute_single_delegation`: last completion text, or `"Error: <e>"` for a
later error event. -/
def collabFinal (events : List Event) : String :=
  events.foldl (fun acc e =>
    match e with
    | .completion r => r
    | .error err _ => "Error: " ++ err
    | _ => acc) ""

/-- Truthiness of `tool_call.input.get("delegations")`. -/
def delegationsTruthy (input : ToolInput) : Bool :=
  match input.delegations with
  | some (_ :: _) => true
  | _ => false

/-- `final_response` / `result` as folded over a delegation's event stream in
`Supervisor.invoke`: the response of the last collaborator-complete event
(initially `""`). -/
def lastCompleteResponse (events : List Event) : String :=
  events.foldl (fun acc e =>
    match e with
    | .collaboratorComplete _ r => r
    | _ => acc) ""

/-- Re-wrap a collaborator's yielded events with its name
(`CollaboratorEvent(agent_name=..., inner_event=...)`); the collaborator's
memory writes and model calls are its own and stay as they are. -/
def wrapSteps (agent_name : String) (steps : List Step) : List Step :=
  steps.map fun s =>
    match s with
    | .ev e => Step.ev (.collaborator agent_name e)
    | s => s

/-- `Supervisor._execute_single_delegation`: empty trace for an unknown name;
otherwise a collaborator-start event, the collaborator's own run with every
yielded event wrapped in a `collaborator` event, and a collaborator-complete
event carrying the final response. -/
def execSingleDelegation (cs : List CollabAgent) (agent_name task session_id : String) :
    List Step :=
  match dictGet cs agent_name with
  | none => []
  | some collab =>
    let derived := session_id ++ ":" ++ agent_name
    let inner := agentRun collab.name collab.client collab.actions
      collab.max_iterations derived task (collab.history derived)
    Step.ev (.collaboratorStart agent_name task) ::
      wrapSteps agent_name inner
      ++ [Step.ev (.collaboratorComplete agent_name (collabFinal (stepsEvents inner)))]

/-- `results[agent_name] = ...`: Python dict assignment on an insertion-ordered
association list. -/
def dictInsert (m : List (String × String)) (k v : String) : List (String × String) :=
  if m.any (fun p => p.1 == k) then
    m.map (fun p => if p.1 == k then (k, v) else p)
  else m ++ [(k, v)]

/-- The per-branch buffered runs of a parallel delegation
(`run_delegation` + `asyncio.gather`, which returns in argument order). -/
def runBranches (cs : List CollabAgent) (session_id : String)
    (ds : List DelegationRec) : List (String × List Step) :=
  ds.map (fun d => (d.agent_name, execSingleDelegation cs d.agent_name d.task session_id))

/-- `results[agent_name] = event.response` for one branch: the branch's
`agent_name` is the key, each collaborator-complete event assigns. -/
def branchFold (agent_name : String) (acc : List (String × String)) (e : Event) :
    List (String × String) :=
  match e with
  | .collaboratorComplete _ r => dictInsert acc agent_name r
  | _ => acc

/-- The `results` dict of a parallel delegation, folded over each branch's
buffered events, in branch order. -/
def collectResults (branches : List (String × List Step)) : List (String × String) :=
  branches.foldl (fun acc b => (stepsEvents b.2).foldl (branchFold b.1) acc) []

/-- The final response of one delegation branch as
`Supervisor.invoke` extracts it from the branch's event stream. -/
def delegationResponse (cs : List CollabAgent) (agent_name task session_id : String) :
    String :=
  lastCompleteResponse (stepsEvents (execSingleDelegation cs agent_name task session_id))

/-- Supervisor construction data (`Supervisor.__init__`): its own client,
collaborators, the collaboration mode, and any user-registered actions (the
registered `delegate` action's body is schema-only and intercepted before
lookup, so it is not part of `actions`). -/
structure SupCfg where
  name : String
  instruction : String
  model_client : Option Client
  collaborators : List CollabAgent
  mode : String := "supervisor"
  actions : List Action := []
  max_iterations : Nat := 10

/-- Outcome of processing one response's tool-call list inside
`Supervisor.invoke`: either continue the loop with updated message lists, or
halt the whole invocation (router-mode handoff returns from `invoke`). -/
inductive ProcOut where
  | cont (steps : List Step) (messages new_messages : List Message)
  | halt (steps : List Step)

/-- Prepend steps to a `ProcOut`. -/
def ProcOut.prepend (s : List Step) : ProcOut → ProcOut
  | .cont t m n => .cont (s ++ t) m n
  | .halt t => .halt (s ++ t)

/-- The sequential `for tool_call in response.tool_calls` processing loop of
`Supervisor.invoke` (supervisor.py lines 219–351). -/
def processCalls (sup : SupCfg) (client : Client) (session_id : String) :
    List ToolCall → List Message → List Message → ProcOut
  | [], messages, new_messages => .cont [] messages new_messages
  | tc :: rest, messages, new_messages =>
    if tc.name == "delegate" then
      if sup.mode == "router" && !delegationsTruthy tc.input then
        let agent_name := tc.input.agent_name.getD ""
        let task := tc.input.task.getD ""
        if agent_name == "" || (dictGet sup.collaborators agent_name).isNone then
          let msg := unknownAgentMessage sup.collaborators agent_name
          let trm : Message := { role := "tool_result", content := some msg,
                                 tool_call_id := some tc.id }
          ProcOut.prepend [.ev (.toolResult tc.id none (some msg))]
            (processCalls sup client session_id rest
              (messages ++ [trm]) (new_messages ++ [trm]))
        else
          let d := execSingleDelegation sup.collaborators agent_name task session_id
          let final := lastCompleteResponse (stepsEvents d)
          .halt ([.ev (.routing agent_name task)] ++ d ++
            [.write session_id new_messages, .ev (.completion final)])
      else if delegationsTruthy tc.input then
        let ds := tc.input.delegations.getD []
        let branches := runBranches sup.collaborators session_id ds
        let results := collectResults branches
        let content := jsonDumpsMap results
        let trm : Message := { role := "tool_result", content := some content,
                               tool_call_id := some tc.id }
        ProcOut.prepend
          (Step.ev (.delegation ds) :: branches.flatMap (fun b => b.2) ++
            [.ev (.toolResult tc.id (some (.str content)) none)])
          (processCalls sup client session_id rest
            (messages ++ [trm]) (new_messages ++ [trm]))
      else
        let agent_name := tc.input.agent_name.getD ""
        let task := tc.input.task.getD ""
        if agent_name == "" || (dictGet sup.collaborators agent_name).isNone then
          let content := unknownAgentMessage sup.collaborators agent_name
          let trm : Message := { role := "tool_result", content := some content,
                                 tool_call_id := some tc.id }
          ProcOut.prepend [.ev (.toolResult tc.id none (some content))]
            (processCalls sup client session_id rest
              (messages ++ [trm]) (new_messages ++ [trm]))
        else
          let d := execSingleDelegation sup.collaborators agent_name task session_id
          let result := lastCompleteResponse (stepsEvents d)
          let trm : Message := { role := "tool_result", content := some result,
                                 tool_call_id := some tc.id }
          ProcOut.prepend
            (d ++ [.ev (.toolResult tc.id (some (.str result)) none)])
            (processCalls sup client session_id rest
              (messages ++ [trm]) (new_messages ++ [trm]))
    else
      let r := executeTool sup.actions tc
      let trm := toolResultMessage r
      ProcOut.prepend [.ev (.toolResult r.1 r.2.1 r.2.2)]
        (processCalls sup client session_id rest
          (messages ++ [trm]) (new_messages ++ [trm]))

/-- The main loop of `Supervisor.invoke` (supervisor.py lines 182–356);
`Supervisor.invoke` calls `chat` directly (no streaming branch of its own). -/
def supervisorLoop (sup : SupCfg) (client : Client) (session_id : String) :
    List Message → List Message → Nat → List Step
  | _, _, 0 => [.ev (.error (maxIterationsMessage sup.max_iterations) false)]
  | messages, new_messages, fuel + 1 =>
    let response := client messages
    Step.modelCall sup.name messages ::
    (if pyStrTruthy response.text && response.tool_calls.isEmpty then
      let t := response.text.getD ""
      let am : Message := { role := "assistant", content := some t }
      [.write session_id (new_messages ++ [am]), .ev (.completion t)]
    else if !response.tool_calls.isEmpty then
      let am := assistantToolMessage response.tool_calls
      let callEvs := response.tool_calls.map
        (fun tc => Step.ev (.toolCall tc.name tc.input tc.id))
      match processCalls sup client session_id response.tool_calls
          (messages ++ [am]) (new_messages ++ [am]) with
      | .halt s => callEvs ++ s
      | .cont s m n =>
          callEvs ++ s ++ supervisorLoop sup client session_id m n fuel
    else
      supervisorLoop sup client session_id messages new_messages fuel)

/-- `Supervisor.invoke` for a configured model client. -/
def supervisorRun (sup : SupCfg) (client : Client)
    (session_id input_text : String) (history : List Message) : List Step :=
  supervisorLoop sup client session_id
    (history ++ [userMessage input_text]) [userMessage input_text]
    sup.max_iterations

/-- The `RuntimeError` message raised by `Supervisor.invoke` when no model
client is configured. -/
def supNoClientMessage (name : String) : String :=
  "Supervisor '" ++ name ++ "' has no model_client configured. " ++
  "Either pass a model_client when creating the agent, or use " ++
  "'bedsheet deploy --target <target>' to inject the appropriate client."

/-- `Supervisor.invoke` including the model-client guard. -/
def supervisorInvoke (sup : SupCfg) (session_id input_text : String)
    (history : List Message) : Except String (List Step) :=
  match sup.model_client with
  | none => .error (supNoClientMessage sup.name)
  | some client => .ok (supervisorRun sup client session_id input_text history)

/-! ## `InMemory` (`bedsheet/memory/in_memory.py`)

The `_sessions` dict is modelled as an insertion-ordered association list
with unique keys (the only way entries are created is the ops below).
`get_messages` returns `list(self._sessions.get(session_id, []))` — a fresh
copy of the stored list — which is what licenses the pure-value semantics
here: callers mutating the returned list cannot change the store. -/

/-- The `InMemory._sessions` dict. -/
abbrev InMemoryStore : Type := List (String × List Message)

/-- `get_messages`: the stored list for the session, `[]` when absent. -/
def InMemoryStore.getMessages : InMemoryStore → String → List Message
  | [], _ => []
  | p :: rest, sid => if p.1 == sid then p.2 else getMessages rest sid

/-- `add_message`: create the session if absent, append one message. -/
def InMemoryStore.addMessage : InMemoryStore → String → Message → InMemoryStore
  | [], sid, m => [(sid, [m])]
  | p :: rest, sid, m =>
    if p.1 == sid then (p.1, p.2 ++ [m]) :: rest else p :: addMessage rest sid m

/-- `add_messages`: create the session if absent, extend with the batch. -/
def InMemoryStore.addMessages : InMemoryStore → String → List Message → InMemoryStore
  | [], sid, ms => [(sid, ms)]
  | p :: rest, sid, ms =>
    if p.1 == sid then (p.1, p.2 ++ ms) :: rest else p :: addMessages rest sid ms

/-- `clear`: `self._sessions.pop(session_id, None)`. -/
def InMemoryStore.clear (st : InMemoryStore) (sid : String) : InMemoryStore :=
  st.filter (fun p => !(p.1 == sid))

/-- Replay the `add_messages` calls of a trace against an `InMemory` store:
the store after an invocation that started from this store. -/
def applyWrites (st : InMemoryStore) (steps : List Step) : InMemoryStore :=
  (stepsWrites steps).foldl (fun s w => s.addMessages w.1 w.2) st

/-! ## Event-ordering predicates (for the per-iteration tool-event contract) -/

/-- Step is a yielded tool-call event. -/
def isToolCallStep : Step → Bool
  | .ev (.toolCall _ _ _) => true
  | _ => false

/-- Step is a yielded tool-result event. -/
def isToolResultStep : Step → Bool
  | .ev (.toolResult _ _ _) => true
  | _ => false

/-- Step is a model-backend call made by the agent named `who`. -/
def isOwnModelCall (who : String) : Step → Bool
  | .modelCall a _ => a == who
  | _ => false

/-- The tool-call events of a trace, in order. -/
def toolCallEvents (steps : List Step) : List Event :=
  (stepsEvents steps).filter (fun e =>
    match e with | .toolCall _ _ _ => true | _ => false)

/-- Number of tool-result events in a trace. -/
def toolResultCount (steps : List Step) : Nat :=
  steps.countP isToolResultStep

/-- Once a tool-result event has been yielded, no further tool-call event is
yielded (within the given span). -/
def noToolCallAfterResult : List Step → Bool
  | [] => true
  | s :: rest =>
    if isToolResultStep s then rest.all (fun t => !isToolCallStep t)
    else noToolCallAfterResult rest

/-- The tool-call events a model response announces, in response order. -/
def expectedToolCallEvents (r : LLMResponse) : List Event :=
  r.tool_calls.map (fun tc => Event.toolCall tc.name tc.input tc.id)

/-- The per-iteration tool-event contract of an invocation trace by agent
`who` against backend `client`: the trace decomposes into segments, one per
model call made by `who`; a segment for a model call on history `msgs`, whose
response carries `k` tool calls, contains exactly the `k` announced tool-call
events in response order, exactly `k` tool-result events, and yields no
tool-call event after a tool-result event; trailing steps after the last
model call of `who` (terminal error, or a completed turn's steps) contain
tool events only per the same segment rule. -/
inductive SegsOK (who : String) (client : Client) : List Step → Prop
  | stop (seg : List Step)
      (hmc : ∀ s ∈ seg, isOwnModelCall who s = false)
      (hnc : ∀ s ∈ seg, isToolCallStep s = false)
      (hnr : ∀ s ∈ seg, isToolResultStep s = false) :
      SegsOK who client seg
  | iter (msgs : List Message) (seg rest : List Step)
      (hmc : ∀ s ∈ seg, isOwnModelCall who s = false)
      (hcalls : toolCallEvents seg = expectedToolCallEvents (client msgs))
      (hcount : toolResultCount seg = (client msgs).tool_calls.length)
      (horder : noToolCallAfterResult seg = true)
      (hrest : SegsOK who client rest) :
      SegsOK who client (Step.modelCall who msgs :: seg ++ rest)

/-! ## Concrete fixtures for counterexamples and witnesses -/

/-- Backend that always returns a degenerate response (no text, no tool
calls). -/
def degenerateClient : Client := fun _ => { text := none, tool_calls := [] }

/-- Backend that first requests one call to an unregistered tool, then
completes. -/
def unknownActionClient : Client := fun msgs =>
  if msgs.length ≤ 2 then
    { text := none,
      tool_calls := [{ id := "c1", name := "missing", input := {} }] }
  else { text := some "ok", tool_calls := [] }

/-- Backend that always requests the same tool call. -/
def alwaysToolClient : Client := fun _ =>
  { text := none,
    tool_calls := [{ id := "c1", name := "ping", input := {} }] }

/-- Backend that immediately completes with `"hi"`. -/
def hiClient : Client := fun _ => { text := some "hi", tool_calls := [] }

/-- A collaborator named `fin` that completes immediately with `"hi"`. -/
def collabFin : CollabAgent :=
  { name := "fin", client := hiClient, actions := [], max_iterations := 10 }

/-- A collaborator named `ops` that completes immediately with `"yo"`. -/
def collabOps : CollabAgent :=
  { name := "ops", client := fun _ => { text := some "yo", tool_calls := [] },
    actions := [], max_iterations := 10 }

/-- Supervisor backend: one single-pair delegate call to `fin`, then a
completion. -/
def supClientSingle : Client := fun msgs =>
  if msgs.length ≤ 2 then
    { text := none,
      tool_calls := [{ id := "d1", name := "delegate",
                       input := { agent_name := some "fin", task := some "t" } }] }
  else { text := some "done", tool_calls := [] }

/-- Supervisor backend: one delegate call with a `delegations` batch of one,
then a completion. -/
def supClientBatch : Client := fun msgs =>
  if msgs.length ≤ 2 then
    { text := none,
      tool_calls := [{ id := "d1", name := "delegate",
                       input := { delegations := some [{ agent_name := "fin", task := "t" }] } }] }
  else { text := some "done", tool_calls := [] }

/-- Supervisor backend: a batch of two tool calls, a routable delegate call
followed by another tool call. -/
def supClientRouteThenTool : Client := fun _ =>
  { text := none,
    tool_calls :=
      [{ id := "d1", name := "delegate",
         input := { agent_name := some "fin", task := some "t" } },
       { id := "d2", name := "other", input := {} }] }

/-- A supervisor-mode supervisor over `fin` (client supplied per run). -/
def supFixture : SupCfg :=
  { name := "boss", instruction := "", model_client := none,
    collaborators := [collabFin], mode := "supervisor", max_iterations := 10 }

/-- A two-delegation parallel batch naming `fin` and `ops`. -/
def dsPar : List DelegationRec :=
  [{ agent_name := "fin", task := "t1" }, { agent_name := "ops", task := "t2" }]

/-- Supervisor backend: one delegate call with the two-branch batch, then a
completion. -/
def supClientPar : Client := fun msgs =>
  if msgs.length ≤ 2 then
    { text := none,
      tool_calls := [{ id := "d1", name := "delegate",
                       input := { delegations := some dsPar } }] }
  else { text := some "done", tool_calls := [] }

/-- A supervisor-mode supervisor over `fin` and `ops`. -/
def supFixture2 : SupCfg :=
  { name := "boss", instruction := "", model_client := none,
    collaborators := [collabFin, collabOps], mode := "supervisor",
    max_iterations := 10 }

/-- A router-mode supervisor over `fin`. -/
def routerFixture : SupCfg :=
  { name := "boss", instruction := "", model_client := none,
    collaborators := [collabFin], mode := "router", max_iterations := 10 }

/-- The yielded tool-call notification steps of one batch, in response
order. -/
def toolCallSteps (tcs : List ToolCall) : List Step :=
  tcs.map fun tc => Step.ev (.toolCall tc.name tc.input tc.id)

/-- The yielded tool-result steps for one batch's results, in batch order. -/
def toolResultSteps (rs : List (String × Option RVal × Option String)) : List Step :=
  rs.map fun r => Step.ev (.toolResult r.1 r.2.1 r.2.2)

/-- The tool-result messages appended for one batch's results. -/
def toolResultMessages (rs : List (String × Option RVal × Option String)) :
    List Message :=
  rs.map toolResultMessage

/-! ## Basic trace lemmas -/

@[simp] theorem stepsEvents_nil : stepsEvents [] = [] := rfl

@[simp] theorem stepsEvents_cons_ev (e : Event) (s : List Step) :
    stepsEvents (Step.ev e :: s) = e :: stepsEvents s := rfl

@[simp] theorem stepsEvents_cons_write (a : String) (m : List Message) (s : List Step) :
    stepsEvents (Step.write a m :: s) = stepsEvents s := rfl

@[simp] theorem stepsEvents_cons_mc (a : String) (m : List Message) (s : List Step) :
    stepsEvents (Step.modelCall a m :: s) = stepsEvents s := rfl

@[simp] theorem stepsEvents_append (a b : List Step) :
    stepsEvents (a ++ b) = stepsEvents a ++ stepsEvents b := by
  simp [stepsEvents]

@[simp] theorem stepsEvents_map_ev {α : Type} (f : α → Event) (l : List α) :
    stepsEvents (l.map fun x => Step.ev (f x)) = l.map f := by
  induction l with
  | nil => rfl
  | cons a l ih => simpa using ih

@[simp] theorem stepsWrites_nil : stepsWrites [] = [] := rfl

@[simp] theorem stepsWrites_cons_ev (e : Event) (s : List Step) :
    stepsWrites (Step.ev e :: s) = stepsWrites s := rfl

@[simp] theorem stepsWrites_cons_write (a : String) (m : List Message) (s : List Step) :
    stepsWrites (Step.write a m :: s) = (a, m) :: stepsWrites s := rfl

@[simp] theorem stepsWrites_cons_mc (a : String) (m : List Message) (s : List Step) :
    stepsWrites (Step.modelCall a m :: s) = stepsWrites s := rfl

@[simp] theorem stepsWrites_append (a b : List Step) :
    stepsWrites (a ++ b) = stepsWrites a ++ stepsWrites b := by
  simp [stepsWrites]

@[simp] theorem stepsWrites_map_ev {α : Type} (f : α → Event) (l : List α) :
    stepsWrites (l.map fun x => Step.ev (f x)) = [] := by
  induction l with
  | nil => rfl
  | cons a l ih => simpa using ih

@[simp] theorem countModelCalls_nil (who : String) : countModelCalls who [] = 0 := rfl

@[simp] theorem countModelCalls_cons_ev (who : String) (e : Event) (s : List Step) :
    countModelCalls who (Step.ev e :: s) = countModelCalls who s := by
  simp [countModelCalls, List.countP_cons]

@[simp] theorem countModelCalls_cons_write (who a : String) (m : List Message)
    (s : List Step) :
    countModelCalls who (Step.write a m :: s) = countModelCalls who s := by
  simp [countModelCalls, List.countP_cons]

@[simp] theorem countModelCalls_cons_mc (who a : String) (m : List Message)
    (s : List Step) :
    countModelCalls who (Step.modelCall a m :: s) =
      countModelCalls who s + (if a == who then 1 else 0) := by
  simp [countModelCalls, List.countP_cons]

@[simp] theorem countModelCalls_append (who : String) (a b : List Step) :
    countModelCalls who (a ++ b) = countModelCalls who a + countModelCalls who b := by
  simp [countModelCalls, List.countP_append]

@[simp] theorem countModelCalls_map_ev (who : String) {α : Type} (f : α → Event)
    (l : List α) :
    countModelCalls who (l.map fun x => Step.ev (f x)) = 0 := by
  induction l with
  | nil => rfl
  | cons a l ih => simpa using ih

@[simp] theorem stepsEvents_toolCallSteps (tcs : List ToolCall) :
    stepsEvents (toolCallSteps tcs) =
      tcs.map fun tc => Event.toolCall tc.name tc.input tc.id := by
  simp [toolCallSteps]

@[simp] theorem stepsWrites_toolCallSteps (tcs : List ToolCall) :
    stepsWrites (toolCallSteps tcs) = [] := by
  simp [toolCallSteps]

@[simp] theorem countModelCalls_toolCallSteps (who : String) (tcs : List ToolCall) :
    countModelCalls who (toolCallSteps tcs) = 0 := by
  simp [toolCallSteps]

@[simp] theorem stepsEvents_toolResultSteps (rs : List (String × Option RVal × Option String)) :
    stepsEvents (toolResultSteps rs) =
      rs.map fun r => Event.toolResult r.1 r.2.1 r.2.2 := by
  simp [toolResultSteps]

@[simp] theorem stepsWrites_toolResultSteps (rs : List (String × Option RVal × Option String)) :
    stepsWrites (toolResultSteps rs) = [] := by
  simp [toolResultSteps]

@[simp] theorem countModelCalls_toolResultSteps (who : String)
    (rs : List (String × Option RVal × Option String)) :
    countModelCalls who (toolResultSteps rs) = 0 := by
  simp [toolResultSteps]

/-- Unfolding `agentLoop` at exhausted fuel. -/
theorem agentLoop_zero (name : String) (client : Client) (actions : List Action)
    (maxIter : Nat) (session_id : String) (m n : List Message) :
    agentLoop name client actions maxIter session_id m n 0 =
      [.ev (.error (maxIterationsMessage maxIter) false)] := rfl

/-- Unfolding `agentLoop` on a text-only response. -/
theorem agentLoop_completion (name : String) (client : Client)
    (actions : List Action) (maxIter : Nat) (session_id : String)
    (m n : List Message) (k : Nat)
    (hT : pyStrTruthy (client m).text = true)
    (hE : (client m).tool_calls = []) :
    agentLoop name client actions maxIter session_id m n (k + 1) =
      [.modelCall name m,
       .write session_id
         (n ++ [{ role := "assistant", content := some ((client m).text.getD "") }]),
       .ev (.completion ((client m).text.getD ""))] := by
  rw [agentLoop]
  simp [hT, hE]

/-- Unfolding `agentLoop` on a response with tool calls. -/
theorem agentLoop_tools (name : String) (client : Client) (actions : List Action)
    (maxIter : Nat) (session_id : String) (m n : List Message) (k : Nat)
    (hcc : (client m).tool_calls.isEmpty = false) :
    agentLoop name client actions maxIter session_id m n (k + 1) =
      Step.modelCall name m ::
        (toolCallSteps (client m).tool_calls ++
         toolResultSteps ((client m).tool_calls.map (executeTool actions)) ++
         agentLoop name client actions maxIter session_id
           (m ++ [assistantToolMessage (client m).tool_calls] ++
             toolResultMessages ((client m).tool_calls.map (executeTool actions)))
           (n ++ [assistantToolMessage (client m).tool_calls] ++
             toolResultMessages ((client m).tool_calls.map (executeTool actions)))
           k) := by
  rw [agentLoop]
  simp [hcc, toolCallSteps, toolResultSteps, toolResultMessages]

/-- Unfolding `agentLoop` on a degenerate response. -/
theorem agentLoop_degenerate_step (name : String) (client : Client)
    (actions : List Action) (maxIter : Nat) (session_id : String)
    (m n : List Message) (k : Nat)
    (hT : pyStrTruthy (client m).text = false)
    (hE : (client m).tool_calls = []) :
    agentLoop name client actions maxIter session_id m n (k + 1) =
      Step.modelCall name m ::
        agentLoop name client actions maxIter session_id m n k := by
  rw [agentLoop]
  simp [hT, hE]

/-! ## Supervisor helper lemmas -/

/-- The collaborator a `dictGet` lookup returns carries the looked-up name. -/
theorem dictGet_name (cs : List CollabAgent) (n : String) (c : CollabAgent)
    (h : dictGet cs n = some c) : c.name = n := by
  have := List.find?_some h
  simpa using this

/-- Every step an agent's loop produces is an event, a write to its own
session, or a model call tagged with its own name. -/
theorem agentLoop_mem_shape (name : String) (client : Client)
    (actions : List Action) (maxIter : Nat) (session_id : String) :
    ∀ (fuel : Nat) (m n : List Message), ∀ s ∈ agentLoop name client actions
      maxIter session_id m n fuel,
      (∃ e, s = Step.ev e) ∨ (∃ ms, s = Step.write session_id ms) ∨
      (∃ ms, s = Step.modelCall name ms) := by
  intro fuel
  induction fuel with
  | zero =>
    intro m n s hs
    rw [agentLoop_zero] at hs
    left
    exact ⟨_, (List.mem_singleton.1 hs)⟩
  | succ k ih =>
    intro m n s hs
    cases h2 : (client m).tool_calls.isEmpty with
    | false =>
      rw [agentLoop_tools name client actions maxIter session_id m n k h2] at hs
      rcases List.mem_cons.1 hs with rfl | hs
      · exact Or.inr (Or.inr ⟨m, rfl⟩)
      rcases List.mem_append.1 hs with hs | hs
      · rcases List.mem_append.1 hs with hs | hs
        · obtain ⟨tc, _, rfl⟩ := List.mem_map.1 hs
          exact Or.inl ⟨_, rfl⟩
        · obtain ⟨r, _, rfl⟩ := List.mem_map.1 hs
          exact Or.inl ⟨_, rfl⟩
      · exact ih _ _ s hs
    | true =>
      cases h1 : pyStrTruthy (client m).text with
      | true =>
        rw [agentLoop_completion name client actions maxIter session_id m n k h1
          (List.isEmpty_iff.1 h2)] at hs
        rcases List.mem_cons.1 hs with rfl | hs
        · exact Or.inr (Or.inr ⟨m, rfl⟩)
        rcases List.mem_cons.1 hs with rfl | hs
        · exact Or.inr (Or.inl ⟨_, rfl⟩)
        · exact Or.inl ⟨_, (List.mem_singleton.1 hs)⟩
      | false =>
        rw [agentLoop_degenerate_step name client actions maxIter session_id m n k h1
          (List.isEmpty_iff.1 h2)] at hs
        rcases List.mem_cons.1 hs with rfl | hs
        · exact Or.inr (Or.inr ⟨m, rfl⟩)
        · exact ih _ _ s hs

/-- A run of a differently-named agent contributes no model calls attributed
to `who`. -/
theorem countModelCalls_agentRun_other (who name : String) (client : Client)
    (actions : List Action) (maxIter : Nat) (session_id input_text : String)
    (history : List Message) (hne : (name == who) = false) :
    countModelCalls who
      (agentRun name client actions maxIter session_id input_text history) = 0 := by
  rw [countModelCalls, List.countP_eq_zero]
  intro s hs
  rcases agentLoop_mem_shape name client actions maxIter session_id maxIter _ _ s hs with
    ⟨e, rfl⟩ | ⟨ms, rfl⟩ | ⟨ms, rfl⟩
  · simp
  · simp
  · simpa using hne

@[simp] theorem stepsEvents_wrapSteps (agent_name : String) (l : List Step) :
    stepsEvents (wrapSteps agent_name l) =
      (stepsEvents l).map (Event.collaborator agent_name) := by
  induction l with
  | nil => rfl
  | cons s rest ih =>
    cases s with
    | ev e => simpa [wrapSteps] using ih
    | write a m => simpa [wrapSteps] using ih
    | modelCall a m => simpa [wrapSteps] using ih

@[simp] theorem countModelCalls_wrapSteps (who agent_name : String) (l : List Step) :
    countModelCalls who (wrapSteps agent_name l) = countModelCalls who l := by
  induction l with
  | nil => rfl
  | cons s rest ih =>
    cases s with
    | ev e => simpa [wrapSteps] using ih
    | write a m => simpa [wrapSteps] using ih
    | modelCall a m => simpa [wrapSteps] using ih

/-- Unfolding `_execute_single_delegation` for a known collaborator. -/
theorem execSingleDelegation_known (cs : List CollabAgent)
    (agent_name task session_id : String) (c : CollabAgent)
    (hc : dictGet cs agent_name = some c) :
    execSingleDelegation cs agent_name task session_id =
      Step.ev (.collaboratorStart agent_name task) ::
        wrapSteps agent_name
          (agentRun c.name c.client c.actions c.max_iterations
            (session_id ++ ":" ++ agent_name) task
            (c.history (session_id ++ ":" ++ agent_name))) ++
        [Step.ev (.collaboratorComplete agent_name
          (collabFinal (stepsEvents
            (agentRun c.name c.client c.actions c.max_iterations
              (session_id ++ ":" ++ agent_name) task
              (c.history (session_id ++ ":" ++ agent_name))))))] := by
  rw [execSingleDelegation, hc]

/-- Unfolding `_execute_single_delegation` for an unknown collaborator. -/
theorem execSingleDelegation_unknown (cs : List CollabAgent)
    (agent_name task session_id : String)
    (hc : dictGet cs agent_name = none) :
    execSingleDelegation cs agent_name task session_id = [] := by
  rw [execSingleDelegation, hc]

/-- Folding `lastCompleteResponse` over events without a collaborator-complete
event leaves the accumulator unchanged. -/
theorem foldl_lastComplete_of_none (es : List Event)
    (h : ∀ e ∈ es, isCollabCompleteEvent e = false) :
    ∀ acc, es.foldl (fun acc e =>
      match e with
      | .collaboratorComplete _ r => r
      | _ => acc) acc = acc := by
  induction es with
  | nil => intro acc; rfl
  | cons e rest ih =>
    intro acc
    have he := h e (List.mem_cons_self e rest)
    have hr : ∀ x ∈ rest, isCollabCompleteEvent x = false :=
      fun x hx => h x (List.mem_cons_of_mem e hx)
    cases e with
    | collaboratorComplete a r => simp [isCollabCompleteEvent] at he
    | toolCall a b c => exact ih hr acc
    | toolResult a b c => exact ih hr acc
    | completion a => exact ih hr acc
    | error a b => exact ih hr acc
    | textToken a => exact ih hr acc
    | routing a b => exact ih hr acc
    | delegation a => exact ih hr acc
    | collaboratorStart a b => exact ih hr acc
    | collaborator a b => exact ih hr acc

/-- Wrapped collaborator events are never bare complete events. -/
theorem wrapped_no_complete (agent_name : String) (l : List Step) :
    ∀ e ∈ stepsEvents (wrapSteps agent_name l), isCollabCompleteEvent e = false := by
  intro e he
  rw [stepsEvents_wrapSteps] at he
  obtain ⟨x, _, rfl⟩ := List.mem_map.1 he
  rfl

/-- Wrapped collaborator events are never bare start events. -/
theorem wrapped_no_start (agent_name : String) (l : List Step) :
    ∀ e ∈ stepsEvents (wrapSteps agent_name l), isCollabStartEvent e = false := by
  intro e he
  rw [stepsEvents_wrapSteps] at he
  obtain ⟨x, _, rfl⟩ := List.mem_map.1 he
  rfl

/-- The response `Supervisor.invoke` extracts from a known collaborator's
delegation is the complete event's response. -/
theorem delegationResponse_known (cs : List CollabAgent)
    (agent_name task session_id : String) (c : CollabAgent)
    (hc : dictGet cs agent_name = some c) :
    delegationResponse cs agent_name task session_id =
      collabFinal (stepsEvents
        (agentRun c.name c.client c.actions c.max_iterations
          (session_id ++ ":" ++ agent_name) task
          (c.history (session_id ++ ":" ++ agent_name)))) := by
  rw [delegationResponse, execSingleDelegation_known cs agent_name task session_id c hc,
    lastCompleteResponse]
  simp only [List.cons_append, stepsEvents_cons_ev, stepsEvents_append,
    stepsEvents_nil, List.foldl_cons, List.foldl_append]
  rfl

/-! ## `processCalls` and `supervisorLoop` unfolding lemmas -/

/-- Unfolding `processCalls` on the empty batch remainder. -/
theorem processCalls_nil (sup : SupCfg) (client : Client) (session_id : String)
    (m n : List Message) :
    processCalls sup client session_id [] m n = .cont [] m n := rfl

/-- Unfolding `processCalls` on a router-mode delegate call to a known
collaborator: the invocation halts with the routed completion. -/
theorem processCalls_router_halt (sup : SupCfg) (client : Client)
    (session_id : String) (tc : ToolCall) (rest : List ToolCall)
    (m n : List Message)
    (hname : tc.name = "delegate")
    (hroute : (sup.mode == "router") = true)
    (hdel : delegationsTruthy tc.input = false)
    (hok : (tc.input.agent_name.getD "" == "") = false)
    (hc : (dictGet sup.collaborators (tc.input.agent_name.getD "")).isNone = false) :
    processCalls sup client session_id (tc :: rest) m n =
      .halt ([.ev (.routing (tc.input.agent_name.getD "") (tc.input.task.getD ""))] ++
        execSingleDelegation sup.collaborators (tc.input.agent_name.getD "")
          (tc.input.task.getD "") session_id ++
        [.write session_id n,
         .ev (.completion (delegationResponse sup.collaborators
           (tc.input.agent_name.getD "") (tc.input.task.getD "") session_id))]) := by
  rw [processCalls]
  simp [hname, hroute, hdel, hok, hc, delegationResponse]

/-- Unfolding `processCalls` on a delegate call with a truthy `delegations`
batch (parallel fan-out), in either collaboration mode. -/
theorem processCalls_parallel (sup : SupCfg) (client : Client)
    (session_id : String) (tc : ToolCall) (rest : List ToolCall)
    (m n : List Message)
    (hname : tc.name = "delegate")
    (hdel : delegationsTruthy tc.input = true) :
    processCalls sup client session_id (tc :: rest) m n =
      ProcOut.prepend
        (Step.ev (.delegation (tc.input.delegations.getD [])) ::
          (runBranches sup.collaborators session_id
            (tc.input.delegations.getD [])).flatMap (fun b => b.2) ++
          [.ev (.toolResult tc.id
            (some (.str (jsonDumpsMap (collectResults (runBranches sup.collaborators
              session_id (tc.input.delegations.getD []))))))
            none)])
        (processCalls sup client session_id rest
          (m ++ [{ role := "tool_result",
                   content := some (jsonDumpsMap (collectResults (runBranches
                     sup.collaborators session_id (tc.input.delegations.getD [])))),
                   tool_call_id := some tc.id }])
          (n ++ [{ role := "tool_result",
                   content := some (jsonDumpsMap (collectResults (runBranches
                     sup.collaborators session_id (tc.input.delegations.getD [])))),
                   tool_call_id := some tc.id }])) := by
  rw [processCalls]
  have hnr : (sup.mode == "router" && !delegationsTruthy tc.input) = false := by
    simp [hdel]
  simp [hname, hdel, hnr]

/-- Unfolding `processCalls` on a single-pair delegate call to a known
collaborator outside router mode. -/
theorem processCalls_single_known (sup : SupCfg) (client : Client)
    (session_id : String) (tc : ToolCall) (rest : List ToolCall)
    (m n : List Message)
    (hname : tc.name = "delegate")
    (hroute : (sup.mode == "router") = false)
    (hdel : delegationsTruthy tc.input = false)
    (hok : (tc.input.agent_name.getD "" == "") = false)
    (hc : (dictGet sup.collaborators (tc.input.agent_name.getD "")).isNone = false) :
    processCalls sup client session_id (tc :: rest) m n =
      ProcOut.prepend
        (execSingleDelegation sup.collaborators (tc.input.agent_name.getD "")
          (tc.input.task.getD "") session_id ++
         [.ev (.toolResult tc.id
           (some (.str (delegationResponse sup.collaborators
             (tc.input.agent_name.getD "") (tc.input.task.getD "") session_id)))
           none)])
        (processCalls sup client session_id rest
          (m ++ [{ role := "tool_result",
                   content := some (delegationResponse sup.collaborators
                     (tc.input.agent_name.getD "") (tc.input.task.getD "") session_id),
                   tool_call_id := some tc.id }])
          (n ++ [{ role := "tool_result",
                   content := some (delegationResponse sup.collaborators
                     (tc.input.agent_name.getD "") (tc.input.task.getD "") session_id),
                   tool_call_id := some tc.id }])) := by
  rw [processCalls]
  simp [hname, hroute, hdel, hok, hc, delegationResponse]

/-- Unfolding `supervisorLoop` on a response with tool calls whose processing
halts (router handoff). -/
theorem supervisorLoop_halt (sup : SupCfg) (client : Client) (session_id : String)
    (m n : List Message) (k : Nat) (s : List Step)
    (hcc : (client m).tool_calls.isEmpty = false)
    (hproc : processCalls sup client session_id (client m).tool_calls
      (m ++ [assistantToolMessage (client m).tool_calls])
      (n ++ [assistantToolMessage (client m).tool_calls]) = .halt s) :
    supervisorLoop sup client session_id m n (k + 1) =
      Step.modelCall sup.name m ::
        (toolCallSteps (client m).tool_calls ++ s) := by
  rw [supervisorLoop]
  simp [hcc, hproc, toolCallSteps]

/-- Unfolding `supervisorLoop` on a response with tool calls whose processing
continues the loop. -/
theorem supervisorLoop_cont (sup : SupCfg) (client : Client) (session_id : String)
    (m n : List Message) (k : Nat) (s : List Step) (m2 n2 : List Message)
    (hcc : (client m).tool_calls.isEmpty = false)
    (hproc : processCalls sup client session_id (client m).tool_calls
      (m ++ [assistantToolMessage (client m).tool_calls])
      (n ++ [assistantToolMessage (client m).tool_calls]) = .cont s m2 n2) :
    supervisorLoop sup client session_id m n (k + 1) =
      Step.modelCall sup.name m ::
        (toolCallSteps (client m).tool_calls ++ s ++
          supervisorLoop sup client session_id m2 n2 k) := by
  rw [supervisorLoop]
  simp [hcc, hproc, toolCallSteps]

/-! ## Theorems for the claims -/

/-- **C9**: an `Agent` or `Supervisor` constructed with `model_client = None`
raises a `RuntimeError` naming the agent when `invoke` is iterated: the
result is the error message (which contains the agent's name by definition
of `noClientMessage` / `supNoClientMessage`), no step — no event, no memory
write — is produced, and the outcome is the same for every history the
memory could have returned. -/
theorem invokeWithoutClientRaises :
    ∀ (name instruction : String) (actions : List Action) (n : Nat)
      (session_id input_text : String) (history : List Message)
      (cs : List CollabAgent) (mode : String),
      agentInvoke { name := name, instruction := instruction, model_client := none,
                    actions := actions, max_iterations := n }
          session_id input_text history = .error (noClientMessage name) ∧
      supervisorInvoke { name := name, instruction := instruction,
                         model_client := none, collaborators := cs, mode := mode,
                         actions := actions, max_iterations := n }
          session_id input_text history = .error (supNoClientMessage name) := by
  intro name instruction actions n session_id input_text history cs mode
  exact ⟨rfl, rfl⟩

/-- **C2**: when the first model response has truthy text and no tool calls,
a (non-streaming) `Agent.invoke` produces exactly three steps: the model
call, one `add_messages` persisting the appended user message plus the
assistant message, and then the single completion event carrying the
response text. -/
theorem completionFirstResponse (name : String) (client : Client)
    (actions : List Action) (maxIter : Nat) (session_id input_text : String)
    (history : List Message)
    (hIter : 1 ≤ maxIter)
    (hText : pyStrTruthy (client (history ++ [userMessage input_text])).text = true)
    (hCalls : (client (history ++ [userMessage input_text])).tool_calls = []) :
    agentRun name client actions maxIter session_id input_text history =
      [.modelCall name (history ++ [userMessage input_text]),
       .write session_id [userMessage input_text,
         { role := "assistant",
           content := some ((client (history ++ [userMessage input_text])).text.getD "") }],
       .ev (.completion ((client (history ++ [userMessage input_text])).text.getD ""))] := by
  obtain ⟨k, rfl⟩ : ∃ k, maxIter = k + 1 :=
    ⟨maxIter - 1, (Nat.succ_pred_eq_of_pos hIter).symm⟩
  rw [agentRun, agentLoop]
  simp [hText, hCalls]

/-- Witness for **C2** at a concrete input. -/
theorem completionFirstResponseWitness :
    1 ≤ 10 ∧
    pyStrTruthy (hiClient ([] ++ [userMessage "q"])).text = true ∧
    (hiClient ([] ++ [userMessage "q"])).tool_calls = [] ∧
    agentRun "a" hiClient [] 10 "s" "q" [] =
      [.modelCall "a" ([] ++ [userMessage "q"]),
       .write "s" [userMessage "q",
         { role := "assistant", content := some ((hiClient ([] ++ [userMessage "q"])).text.getD "") }],
       .ev (.completion ((hiClient ([] ++ [userMessage "q"])).text.getD ""))] :=
  ⟨by decide, by decide, by decide,
    completionFirstResponse "a" hiClient [] 10 "s" "q" [] (by decide) (by decide) (by decide)⟩

/-- Helper: when every response is degenerate (untruthy text, no tool calls),
the loop yields nothing, keeps the history unchanged, and calls the model
once per remaining iteration before the terminal error. -/
theorem agentLoop_degenerate (name : String) (client : Client)
    (actions : List Action) (maxIter : Nat) (session_id : String)
    (h : ∀ m, pyStrTruthy (client m).text = false ∧ (client m).tool_calls = []) :
    ∀ (fuel : Nat) (messages new_messages : List Message),
      agentLoop name client actions maxIter session_id messages new_messages fuel =
        List.replicate fuel (.modelCall name messages) ++
        [.ev (.error (maxIterationsMessage maxIter) false)] := by
  intro fuel
  induction fuel with
  | zero => intro m n; rfl
  | succ k ih =>
    intro m n
    rw [agentLoop]
    simp [(h m).1, (h m).2, List.replicate_succ, ih]

/-- Helper: when every response carries tool calls, the loop persists
nothing, makes one model call per remaining iteration, and its event stream
is error-free until the single final max-iterations error event. -/
theorem agentLoop_all_tools (name : String) (client : Client)
    (actions : List Action) (maxIter : Nat) (session_id : String)
    (h : ∀ m, (client m).tool_calls ≠ []) :
    ∀ (fuel : Nat) (messages new_messages : List Message),
      stepsWrites (agentLoop name client actions maxIter session_id
        messages new_messages fuel) = [] ∧
      countModelCalls name (agentLoop name client actions maxIter session_id
        messages new_messages fuel) = fuel ∧
      ∃ E, stepsEvents (agentLoop name client actions maxIter session_id
          messages new_messages fuel) =
          E ++ [.error (maxIterationsMessage maxIter) false] ∧
        ∀ e ∈ E, isErrorEvent e = false := by
  intro fuel
  induction fuel with
  | zero =>
    intro m n
    exact ⟨rfl, rfl, [], rfl, by simp⟩
  | succ k ih =>
    intro m n
    have hcc : (client m).tool_calls.isEmpty = false := by
      cases hcs : (client m).tool_calls with
      | nil => exact absurd hcs (h m)
      | cons t ts => rfl
    rw [agentLoop_tools name client actions maxIter session_id m n k hcc]
    obtain ⟨hw, hc, E, hE, hEf⟩ :=
      ih (m ++ [assistantToolMessage (client m).tool_calls] ++
            toolResultMessages ((client m).tool_calls.map (executeTool actions)))
         (n ++ [assistantToolMessage (client m).tool_calls] ++
            toolResultMessages ((client m).tool_calls.map (executeTool actions)))
    simp only [List.append_assoc, List.singleton_append] at hw hc hE
    refine ⟨?_, ?_, ?_⟩
    · simp [hw]
    · simp [hc, Nat.add_comm]
    · refine ⟨((client m).tool_calls.map fun tc => Event.toolCall tc.name tc.input tc.id) ++
        ((((client m).tool_calls.map (executeTool actions)).map fun r =>
          Event.toolResult r.1 r.2.1 r.2.2) ++ E), ?_, ?_⟩
      · simp [hE]
      · intro e he
        rcases List.mem_append.1 he with he | he
        · obtain ⟨tc, _, rfl⟩ := List.mem_map.1 he
          rfl
        · rcases List.mem_append.1 he with he | he
          · obtain ⟨r, _, rfl⟩ := List.mem_map.1 he
            rfl
          · exact hEf e he

/-- **C1**: an agent whose model response always contains tool calls never
completes: over an invocation with `max_iterations = N` it makes exactly `N`
model calls (so at most `N` loop iterations), never calls `add_messages`
(nothing accumulated is persisted), and its event stream ends with the
single non-recoverable max-iterations error event, with no other error
event before it. -/
theorem maxIterationsExhaustion (name : String) (client : Client)
    (actions : List Action) (n : Nat) (session_id input_text : String)
    (history : List Message)
    (h : ∀ m, (client m).tool_calls ≠ []) :
    stepsWrites (agentRun name client actions n session_id input_text history) = [] ∧
    countModelCalls name
      (agentRun name client actions n session_id input_text history) = n ∧
    ∃ E, stepsEvents (agentRun name client actions n session_id input_text history) =
        E ++ [.error (maxIterationsMessage n) false] ∧
      ∀ e ∈ E, isErrorEvent e = false := by
  exact agentLoop_all_tools name client actions n session_id h n _ _

/-- Witness for **C1** at a concrete input. -/
theorem maxIterationsExhaustionWitness :
    (∀ m, (alwaysToolClient m).tool_calls ≠ []) ∧
    (stepsWrites (agentRun "a" alwaysToolClient [] 2 "s" "x" []) = [] ∧
     countModelCalls "a" (agentRun "a" alwaysToolClient [] 2 "s" "x" []) = 2 ∧
     ∃ E, stepsEvents (agentRun "a" alwaysToolClient [] 2 "s" "x" []) =
         E ++ [.error (maxIterationsMessage 2) false] ∧
       ∀ e ∈ E, isErrorEvent e = false) :=
  ⟨fun _ => List.cons_ne_nil _ _,
    maxIterationsExhaustion "a" alwaysToolClient [] 2 "s" "x" []
      (fun _ => List.cons_ne_nil _ _)⟩

/-- **C5 counterexample**: with `max_iterations = 2` and a backend whose
responses are always degenerate (no text, no tool calls), `Agent.invoke`
does not stop after the first degenerate response: it makes a second model
call, yields no event at all until the budget is exhausted, and only then
yields the max-iterations error — so the number of model calls is 2, not
the 1 the claim's "stops immediately, no further model calls" requires. -/
theorem degenerateResponseCounterexample :
    agentRun "a" degenerateClient [] 2 "s" "x" [] =
      [.modelCall "a" ([] ++ [userMessage "x"]),
       .modelCall "a" ([] ++ [userMessage "x"]),
       .ev (.error "Max iterations (2) exceeded" false)] ∧
    countModelCalls "a" (agentRun "a" degenerateClient [] 2 "s" "x" []) ≠ 1 := by
  exact ⟨rfl, by decide⟩

/-- **C5 amended**: a model response with neither text nor tool calls does
not stop the invocation; the loop silently proceeds to the next iteration
with unchanged history. An agent whose model always responds degenerately
makes exactly `max_iterations` model calls, yields no event before the end,
and then yields the single terminal non-recoverable max-iterations error
event. -/
theorem degenerateResponsesLoop (name : String) (client : Client)
    (actions : List Action) (maxIter : Nat) (session_id input_text : String)
    (history : List Message)
    (h : ∀ m, pyStrTruthy (client m).text = false ∧ (client m).tool_calls = []) :
    agentRun name client actions maxIter session_id input_text history =
      List.replicate maxIter
        (.modelCall name (history ++ [userMessage input_text])) ++
      [.ev (.error (maxIterationsMessage maxIter) false)] := by
  rw [agentRun]
  exact agentLoop_degenerate name client actions maxIter session_id h maxIter _ _

/-- Witness for **C5 amended** at a concrete input. -/
theorem degenerateResponsesLoopWitness :
    (∀ m, pyStrTruthy (degenerateClient m).text = false ∧
      (degenerateClient m).tool_calls = []) ∧
    agentRun "b" degenerateClient [] 3 "s" "x" [] =
      List.replicate 3 (.modelCall "b" ([] ++ [userMessage "x"])) ++
      [.ev (.error (maxIterationsMessage 3) false)] :=
  ⟨fun _ => ⟨rfl, rfl⟩,
    degenerateResponsesLoop "b" degenerateClient [] 3 "s" "x" [] (fun _ => ⟨rfl, rfl⟩)⟩

/-- **C4 counterexample**: an unresolved tool name produces the error string
`"Unknown action: <name>"` (capital U), not the `"unknown action: <name>"`
the claim states. -/
theorem unknownActionCounterexample :
    (stepsEvents (agentRun "a" unknownActionClient [] 10 "s" "x" [])).take 2 =
      [.toolCall "missing" {} "c1",
       .toolResult "c1" none (some "Unknown action: missing")] ∧
    some "Unknown action: missing" ≠ some ("unknown action: " ++ "missing") := by
  exact ⟨rfl, by decide⟩

/-- **C4 amended**: a tool call whose name does not resolve in the catalog
never becomes an engine fault: the run yields a tool-result event with
non-null error `"Unknown action: <name>"` (containing the unresolved name),
appends a tool-result message whose content is the error string prefixed
with `"Error: "` to the history handed to the next model call, and the loop
continues with that next model call. -/
theorem unknownActionRecoverable (name : String) (client : Client)
    (actions : List Action) (maxIter : Nat) (session_id input_text : String)
    (history : List Message) (tc : ToolCall)
    (hIter : 2 ≤ maxIter)
    (hresp : (client (history ++ [userMessage input_text])).tool_calls = [tc])
    (hmiss : getAction actions tc.name = none) :
    (agentRun name client actions maxIter session_id input_text history).take 4 =
      [.modelCall name (history ++ [userMessage input_text]),
       .ev (.toolCall tc.name tc.input tc.id),
       .ev (.toolResult tc.id none (some ("Unknown action: " ++ tc.name))),
       .modelCall name
         ((history ++ [userMessage input_text]) ++ [assistantToolMessage [tc]] ++
          [{ role := "tool_result",
             content := some ("Error: Unknown action: " ++ tc.name),
             tool_call_id := some tc.id }])] := by
  obtain ⟨k, rfl⟩ : ∃ k, maxIter = k + 2 := ⟨maxIter - 2, by omega⟩
  rw [agentRun, agentLoop]
  simp only [hresp]
  rw [agentLoop]
  simp [executeTool, hmiss, toolResultMessage, toolResultContent, pyStrTruthy,
    dumpsVal, assistantToolMessage]
  have hne : ¬("Unknown action: " ++ tc.name = "") := by
    intro h
    have h2 := congrArg String.length h
    simp [String.length_append] at h2
    exact absurd h2.1 (by decide)
  rw [if_neg hne, ← String.append_assoc]
  exact congrArg (fun s => s ++ tc.name) (by decide)

/-- Witness for **C4 amended** at a concrete input. -/
theorem unknownActionRecoverableWitness :
    2 ≤ 10 ∧
    (unknownActionClient ([] ++ [userMessage "x"])).tool_calls =
      [{ id := "c1", name := "missing", input := {} }] ∧
    getAction [] "missing" = none ∧
    (agentRun "a" unknownActionClient [] 10 "s" "x" []).take 4 =
      [.modelCall "a" ([] ++ [userMessage "x"]),
       .ev (.toolCall "missing" {} "c1"),
       .ev (.toolResult "c1" none (some ("Unknown action: " ++ "missing"))),
       .modelCall "a"
         (([] ++ [userMessage "x"]) ++
            [assistantToolMessage [{ id := "c1", name := "missing", input := {} }]] ++
          [{ role := "tool_result",
             content := some ("Error: Unknown action: " ++ "missing"),
             tool_call_id := some "c1" }])] :=
  ⟨by decide, by decide, rfl,
    unknownActionRecoverable "a" unknownActionClient [] 10 "s" "x" []
      { id := "c1", name := "missing", input := {} } (by decide) (by decide) rfl⟩

/-- Helper: `add_messages` extends the addressed session's stored list. -/
theorem getMessages_addMessages_self (st : InMemoryStore) (sid : String)
    (ms : List Message) :
    (st.addMessages sid ms).getMessages sid = st.getMessages sid ++ ms := by
  induction st with
  | nil => simp [InMemoryStore.addMessages, InMemoryStore.getMessages]
  | cons p rest ih =>
    cases hp : p.1 == sid with
    | true => simp [InMemoryStore.addMessages, InMemoryStore.getMessages, hp]
    | false => simp [InMemoryStore.addMessages, InMemoryStore.getMessages, hp, ih]

/-- Helper: `add_messages` leaves every other session unchanged. -/
theorem getMessages_addMessages_other (st : InMemoryStore) (sid sid2 : String)
    (ms : List Message) (hne : sid2 ≠ sid) :
    (st.addMessages sid ms).getMessages sid2 = st.getMessages sid2 := by
  induction st with
  | nil =>
    have h2 : (sid == sid2) = false := by
      simpa using fun h => hne h.symm
    simp [InMemoryStore.addMessages, InMemoryStore.getMessages, h2]
  | cons p rest ih =>
    cases hp : p.1 == sid with
    | true =>
      have hps : p.1 = sid := by simpa using hp
      have h2 : (p.1 == sid2) = false := by
        simp [hps]
        exact fun h => hne h.symm
      simp [InMemoryStore.addMessages, InMemoryStore.getMessages, hp, h2]
    | false => simp [InMemoryStore.addMessages, InMemoryStore.getMessages, hp, ih]

/-- Helper: `add_message` appends one message to the addressed session. -/
theorem getMessages_addMessage_self (st : InMemoryStore) (sid : String)
    (m : Message) :
    (st.addMessage sid m).getMessages sid = st.getMessages sid ++ [m] := by
  induction st with
  | nil => simp [InMemoryStore.addMessage, InMemoryStore.getMessages]
  | cons p rest ih =>
    cases hp : p.1 == sid with
    | true => simp [InMemoryStore.addMessage, InMemoryStore.getMessages, hp]
    | false => simp [InMemoryStore.addMessage, InMemoryStore.getMessages, hp, ih]

/-- Helper: `add_message` leaves every other session unchanged. -/
theorem getMessages_addMessage_other (st : InMemoryStore) (sid sid2 : String)
    (m : Message) (hne : sid2 ≠ sid) :
    (st.addMessage sid m).getMessages sid2 = st.getMessages sid2 := by
  induction st with
  | nil =>
    have h2 : (sid == sid2) = false := by
      simpa using fun h => hne h.symm
    simp [InMemoryStore.addMessage, InMemoryStore.getMessages, h2]
  | cons p rest ih =>
    cases hp : p.1 == sid with
    | true =>
      have hps : p.1 = sid := by simpa using hp
      have h2 : (p.1 == sid2) = false := by
        simp [hps]
        exact fun h => hne h.symm
      simp [InMemoryStore.addMessage, InMemoryStore.getMessages, hp, h2]
    | false => simp [InMemoryStore.addMessage, InMemoryStore.getMessages, hp, ih]

/-- Helper: `clear` empties the addressed session. -/
theorem getMessages_clear_self (st : InMemoryStore) (sid : String) :
    (st.clear sid).getMessages sid = [] := by
  induction st with
  | nil => rfl
  | cons p rest ih =>
    cases hp : p.1 == sid with
    | true => simpa [InMemoryStore.clear, InMemoryStore.getMessages, hp] using ih
    | false => simpa [InMemoryStore.clear, InMemoryStore.getMessages, hp] using ih

/-- Helper: `clear` leaves every other session unchanged. -/
theorem getMessages_clear_other (st : InMemoryStore) (sid sid2 : String)
    (hne : sid2 ≠ sid) :
    (st.clear sid).getMessages sid2 = st.getMessages sid2 := by
  induction st with
  | nil => rfl
  | cons p rest ih =>
    cases hp : p.1 == sid with
    | true =>
      have hps : p.1 = sid := by simpa using hp
      have h2 : (p.1 == sid2) = false := by
        simp [hps]
        exact fun h => hne h.symm
      simpa [InMemoryStore.clear, InMemoryStore.getMessages, hp, h2] using ih
    | false =>
      have hcl : InMemoryStore.clear (p :: rest) sid = p :: InMemoryStore.clear rest sid := by
        simp [InMemoryStore.clear, hp]
      rw [hcl]
      simp [InMemoryStore.getMessages, ih]

/-- **C10**: the `InMemory` store contract.  `get_messages` returns a fresh
copy of the stored list (which is exactly what licenses this pure-value
model: the engine's in-place appends to the fetched list cannot change the
store); the stored history of a session changes only through `add_message`,
`add_messages` or `clear`; `add_messages` appends the batch after the
previously stored messages without mutating or reordering them, and leaves
every other session untouched; so an invocation that performs no
`add_messages` call leaves the whole store exactly as it was. -/
theorem inMemoryAppendOnly :
    (∀ (st : InMemoryStore) (sid : String) (ms : List Message),
      (st.addMessages sid ms).getMessages sid = st.getMessages sid ++ ms) ∧
    (∀ (st : InMemoryStore) (sid sid2 : String) (ms : List Message), sid2 ≠ sid →
      (st.addMessages sid ms).getMessages sid2 = st.getMessages sid2) ∧
    (∀ (st : InMemoryStore) (sid : String) (m : Message),
      (st.addMessage sid m).getMessages sid = st.getMessages sid ++ [m]) ∧
    (∀ (st : InMemoryStore) (sid sid2 : String) (m : Message), sid2 ≠ sid →
      (st.addMessage sid m).getMessages sid2 = st.getMessages sid2) ∧
    (∀ (st : InMemoryStore) (sid : String), (st.clear sid).getMessages sid = []) ∧
    (∀ (st : InMemoryStore) (sid sid2 : String), sid2 ≠ sid →
      (st.clear sid).getMessages sid2 = st.getMessages sid2) ∧
    (∀ (st : InMemoryStore) (name : String) (client : Client)
      (actions : List Action) (k : Nat) (sid txt : String),
      stepsWrites (agentRun name client actions k sid txt (st.getMessages sid)) = [] →
      applyWrites st (agentRun name client actions k sid txt (st.getMessages sid)) = st) := by
  refine ⟨getMessages_addMessages_self, getMessages_addMessages_other,
    getMessages_addMessage_self, getMessages_addMessage_other,
    getMessages_clear_self, getMessages_clear_other, ?_⟩
  intro st name client actions k sid txt h
  simp [applyWrites, h]

/-- Witness for **C10** at concrete inputs. -/
theorem inMemoryAppendOnlyWitness :
    InMemoryStore.getMessages (InMemoryStore.addMessages [] "s" [userMessage "x"]) "s" =
      InMemoryStore.getMessages [] "s" ++ [userMessage "x"] ∧
    ("t" ≠ "s" ∧
      InMemoryStore.getMessages
        (InMemoryStore.addMessages [("t", [userMessage "y"])] "s" [userMessage "x"]) "t" =
        InMemoryStore.getMessages [("t", [userMessage "y"])] "t") ∧
    InMemoryStore.getMessages (InMemoryStore.clear [] "s") "s" = [] ∧
    (stepsWrites (agentRun "a" degenerateClient [] 1 "s" "x"
        (InMemoryStore.getMessages [] "s")) = [] ∧
      applyWrites [] (agentRun "a" degenerateClient [] 1 "s" "x"
        (InMemoryStore.getMessages [] "s")) = []) :=
  ⟨inMemoryAppendOnly.1 [] "s" [userMessage "x"],
    ⟨by decide,
      inMemoryAppendOnly.2.1 [("t", [userMessage "y"])] "s" "t" [userMessage "x"]
        (by decide)⟩,
    inMemoryAppendOnly.2.2.2.2.1 [] "s",
    ⟨rfl,
      inMemoryAppendOnly.2.2.2.2.2.2 [] "a" degenerateClient [] 1 "s" "x" rfl⟩⟩

/-- **C7**: in router mode, a delegate tool call naming one known
collaborator hands off: the supervisor yields a routing event before any of
the collaborator's events, runs the collaborator, persists, and its terminal
completion event carries exactly the response of that collaborator's
collaborator-complete event (`delegationResponse` appears in both); after
the delegation no further model call by the supervisor occurs — its model
call count over the whole invocation is 1 (no re-synthesis). -/
theorem routerSingleHandoff (sup : SupCfg) (client : Client)
    (session_id input_text : String) (history : List Message)
    (tc : ToolCall) (c : CollabAgent)
    (hIter : 1 ≤ sup.max_iterations)
    (hmode : sup.mode = "router")
    (hresp : (client (history ++ [userMessage input_text])).tool_calls = [tc])
    (hname : tc.name = "delegate")
    (hdel : delegationsTruthy tc.input = false)
    (hok : (tc.input.agent_name.getD "" == "") = false)
    (hc : dictGet sup.collaborators (tc.input.agent_name.getD "") = some c)
    (hfor : (c.name == sup.name) = false) :
    supervisorRun sup client session_id input_text history =
      [Step.modelCall sup.name (history ++ [userMessage input_text]),
       .ev (.toolCall tc.name tc.input tc.id),
       .ev (.routing (tc.input.agent_name.getD "") (tc.input.task.getD ""))] ++
      (Step.ev (.collaboratorStart (tc.input.agent_name.getD "")
          (tc.input.task.getD "")) ::
        wrapSteps (tc.input.agent_name.getD "")
          (agentRun c.name c.client c.actions c.max_iterations
            (session_id ++ ":" ++ tc.input.agent_name.getD "")
            (tc.input.task.getD "")
            (c.history (session_id ++ ":" ++ tc.input.agent_name.getD ""))) ++
        [Step.ev (.collaboratorComplete (tc.input.agent_name.getD "")
          (delegationResponse sup.collaborators (tc.input.agent_name.getD "")
            (tc.input.task.getD "") session_id))]) ++
      [.write session_id [userMessage input_text, assistantToolMessage [tc]],
       .ev (.completion (delegationResponse sup.collaborators
         (tc.input.agent_name.getD "") (tc.input.task.getD "") session_id))] ∧
    countModelCalls sup.name
      (supervisorRun sup client session_id input_text history) = 1 := by
  obtain ⟨k, hk⟩ : ∃ k, sup.max_iterations = k + 1 :=
    ⟨sup.max_iterations - 1, (Nat.succ_pred_eq_of_pos hIter).symm⟩
  have hcc : (client (history ++ [userMessage input_text])).tool_calls.isEmpty
      = false := by
    rw [hresp]; rfl
  have hproc : processCalls sup client session_id
      (client (history ++ [userMessage input_text])).tool_calls
      ((history ++ [userMessage input_text]) ++
        [assistantToolMessage (client (history ++ [userMessage input_text])).tool_calls])
      ([userMessage input_text] ++
        [assistantToolMessage (client (history ++ [userMessage input_text])).tool_calls]) =
      .halt ([.ev (.routing (tc.input.agent_name.getD "") (tc.input.task.getD ""))] ++
        execSingleDelegation sup.collaborators (tc.input.agent_name.getD "")
          (tc.input.task.getD "") session_id ++
        [.write session_id
           ([userMessage input_text] ++ [assistantToolMessage [tc]]),
         .ev (.completion (delegationResponse sup.collaborators
           (tc.input.agent_name.getD "") (tc.input.task.getD "") session_id))]) := by
    rw [hresp]
    exact processCalls_router_halt sup client session_id tc []
      ((history ++ [userMessage input_text]) ++ [assistantToolMessage [tc]])
      ([userMessage input_text] ++ [assistantToolMessage [tc]])
      hname (by simp [hmode]) hdel hok (by simp [hc])
  have htrace : supervisorRun sup client session_id input_text history =
      Step.modelCall sup.name (history ++ [userMessage input_text]) ::
        (toolCallSteps (client (history ++ [userMessage input_text])).tool_calls ++
          ([.ev (.routing (tc.input.agent_name.getD "") (tc.input.task.getD ""))] ++
            execSingleDelegation sup.collaborators (tc.input.agent_name.getD "")
              (tc.input.task.getD "") session_id ++
            [.write session_id
               ([userMessage input_text] ++ [assistantToolMessage [tc]]),
             .ev (.completion (delegationResponse sup.collaborators
               (tc.input.agent_name.getD "") (tc.input.task.getD "") session_id))])) := by
    rw [supervisorRun, hk]
    exact supervisorLoop_halt sup client session_id _ _ k _ hcc hproc
  constructor
  · rw [htrace, hresp,
      execSingleDelegation_known sup.collaborators (tc.input.agent_name.getD "")
        (tc.input.task.getD "") session_id c hc,
      delegationResponse_known sup.collaborators (tc.input.agent_name.getD "")
        (tc.input.task.getD "") session_id c hc]
    simp [toolCallSteps]
  · rw [htrace,
      execSingleDelegation_known sup.collaborators (tc.input.agent_name.getD "")
        (tc.input.task.getD "") session_id c hc]
    simp [countModelCalls_agentRun_other sup.name c.name c.client c.actions
      c.max_iterations _ _ _ hfor]

/-- Witness for **C7** at a concrete input: the router fixture over `fin`
makes exactly one supervisor model call. -/
theorem routerSingleHandoffWitness :
    countModelCalls "boss"
      (supervisorRun routerFixture supClientSingle "s" "q" []) = 1 :=
  (routerSingleHandoff routerFixture supClientSingle "s" "q" []
    { id := "d1", name := "delegate",
      input := { agent_name := some "fin", task := some "t" } }
    collabFin (by decide) rfl (by decide) rfl rfl (by decide) rfl
    (by decide)).2

/-- Folding a function that ignores non-complete events over events without a
collaborator-complete event leaves the accumulator unchanged. -/
theorem foldl_skip_of_no_complete {α : Type} (g : α → Event → α)
    (hg : ∀ a e, isCollabCompleteEvent e = false → g a e = a)
    (es : List Event) (h : ∀ e ∈ es, isCollabCompleteEvent e = false) :
    ∀ acc, es.foldl g acc = acc := by
  induction es with
  | nil => intro acc; rfl
  | cons e rest ih =>
    intro acc
    rw [List.foldl_cons, hg acc e (h e (List.mem_cons_self e rest))]
    exact ih (fun x hx => h x (List.mem_cons_of_mem e hx)) acc

/-- `branchFold` ignores every event that is not a collaborator-complete. -/
theorem branchFold_skip (bname : String) :
    ∀ (a : List (String × String)) (e : Event),
      isCollabCompleteEvent e = false → branchFold bname a e = a := by
  intro a e he
  cases e <;> first
    | rfl
    | simp [isCollabCompleteEvent] at he

@[simp] theorem countCollabStarts_nil : countCollabStarts [] = 0 := rfl

@[simp] theorem countCollabStarts_append (a b : List Step) :
    countCollabStarts (a ++ b) = countCollabStarts a + countCollabStarts b := by
  simp [countCollabStarts, List.countP_append]

@[simp] theorem countCollabCompletes_nil : countCollabCompletes [] = 0 := rfl

@[simp] theorem countCollabCompletes_append (a b : List Step) :
    countCollabCompletes (a ++ b) = countCollabCompletes a + countCollabCompletes b := by
  simp [countCollabCompletes, List.countP_append]

/-- A known collaborator's delegation contributes exactly one bare
collaborator-start event. -/
theorem countCollabStarts_execSingle (cs : List CollabAgent)
    (agent_name task session_id : String) (c : CollabAgent)
    (hc : dictGet cs agent_name = some c) :
    countCollabStarts (execSingleDelegation cs agent_name task session_id) = 1 := by
  rw [execSingleDelegation_known cs agent_name task session_id c hc]
  simp only [List.cons_append, countCollabStarts, stepsEvents_cons_ev,
    stepsEvents_append, stepsEvents_wrapSteps, stepsEvents_cons_ev, stepsEvents_nil,
    List.countP_cons, List.countP_append]
  rw [List.countP_eq_zero.2]
  · rfl
  · intro e he
    obtain ⟨x, _, rfl⟩ := List.mem_map.1 he
    simp [isCollabStartEvent]

/-- A known collaborator's delegation contributes exactly one bare
collaborator-complete event. -/
theorem countCollabCompletes_execSingle (cs : List CollabAgent)
    (agent_name task session_id : String) (c : CollabAgent)
    (hc : dictGet cs agent_name = some c) :
    countCollabCompletes (execSingleDelegation cs agent_name task session_id) = 1 := by
  rw [execSingleDelegation_known cs agent_name task session_id c hc]
  simp only [List.cons_append, countCollabCompletes, stepsEvents_cons_ev,
    stepsEvents_append, stepsEvents_wrapSteps, stepsEvents_nil,
    List.countP_cons, List.countP_append]
  rw [List.countP_eq_zero.2]
  · rfl
  · intro e he
    obtain ⟨x, _, rfl⟩ := List.mem_map.1 he
    simp [isCollabCompleteEvent]

/-- A parallel batch over known collaborators emits exactly one start and one
complete event per delegation. -/
theorem countCollab_branches (cs : List CollabAgent) (session_id : String) :
    ∀ (ds : List DelegationRec),
      (∀ d ∈ ds, (dictGet cs d.agent_name).isSome = true) →
      countCollabStarts ((runBranches cs session_id ds).flatMap (fun b => b.2)) =
        ds.length ∧
      countCollabCompletes ((runBranches cs session_id ds).flatMap (fun b => b.2)) =
        ds.length := by
  intro ds
  induction ds with
  | nil => intro _; exact ⟨rfl, rfl⟩
  | cons d ds ih =>
    intro hknown
    obtain ⟨c, hc⟩ := Option.isSome_iff_exists.1
      (hknown d (List.mem_cons_self d ds))
    obtain ⟨ihs, ihc⟩ := ih (fun x hx => hknown x (List.mem_cons_of_mem d hx))
    rw [runBranches, List.map_cons, List.flatMap_cons]
    rw [← runBranches]
    constructor
    · rw [countCollabStarts_append,
        countCollabStarts_execSingle cs d.agent_name d.task session_id c hc, ihs]
      simp [Nat.add_comm]
    · rw [countCollabCompletes_append,
        countCollabCompletes_execSingle cs d.agent_name d.task session_id c hc, ihc]
      simp [Nat.add_comm]

/-- Inserting a fresh key appends it. -/
theorem dictInsert_of_fresh (m : List (String × String)) (k v : String)
    (h : ∀ p ∈ m, (p.1 == k) = false) :
    dictInsert m k v = m ++ [(k, v)] := by
  rw [dictInsert, if_neg]
  rw [List.any_eq_true]
  rintro ⟨p, hp, hpk⟩
  rw [h p hp] at hpk
  exact Bool.false_ne_true hpk

/-- One known branch's fold assigns exactly its own key. -/
theorem branchFold_execSingle (cs : List CollabAgent)
    (agent_name task session_id bname : String) (c : CollabAgent)
    (hc : dictGet cs agent_name = some c) (acc : List (String × String)) :
    (stepsEvents (execSingleDelegation cs agent_name task session_id)).foldl
      (branchFold bname) acc =
      dictInsert acc bname
        (delegationResponse cs agent_name task session_id) := by
  rw [execSingleDelegation_known cs agent_name task session_id c hc,
    delegationResponse_known cs agent_name task session_id c hc]
  simp only [List.cons_append, stepsEvents_cons_ev, stepsEvents_append,
    stepsEvents_nil, List.foldl_cons, List.foldl_append]
  rw [branchFold_skip bname acc (.collaboratorStart agent_name task) rfl]
  rw [foldl_skip_of_no_complete (branchFold bname) (branchFold_skip bname) _
    (wrapped_no_complete agent_name _)]
  rfl

/-- The `results` dict of a parallel batch over known, distinctly named
collaborators has exactly the batch's agent names as keys, in batch order
(stated with a general accumulator for the induction). -/
theorem collectResults_keys_aux (cs : List CollabAgent) (session_id : String) :
    ∀ (ds : List DelegationRec) (acc : List (String × String)),
      (∀ d ∈ ds, (dictGet cs d.agent_name).isSome = true) →
      (ds.map (fun d => d.agent_name)).Nodup →
      (∀ d ∈ ds, ∀ p ∈ acc, (p.1 == d.agent_name) = false) →
      ((runBranches cs session_id ds).foldl
        (fun acc2 b => (stepsEvents b.2).foldl (branchFold b.1) acc2) acc).map
          Prod.fst =
        acc.map Prod.fst ++ ds.map (fun d => d.agent_name) := by
  intro ds
  induction ds with
  | nil => intro acc _ _ _; simp [runBranches]
  | cons d ds ih =>
    intro acc hknown hnodup hfresh
    obtain ⟨c, hc⟩ := Option.isSome_iff_exists.1
      (hknown d (List.mem_cons_self d ds))
    rw [runBranches, List.map_cons, List.foldl_cons, ← runBranches]
    rw [branchFold_execSingle cs d.agent_name d.task session_id d.agent_name c hc acc]
    rw [dictInsert_of_fresh acc d.agent_name _
      (fun p hp => hfresh d (List.mem_cons_self d ds) p hp)]
    have hnd : d.agent_name ∉ ds.map (fun d => d.agent_name) ∧
        (ds.map (fun d => d.agent_name)).Nodup := by
      rw [List.map_cons] at hnodup
      exact List.nodup_cons.1 hnodup
    rw [ih (acc ++ [(d.agent_name, delegationResponse cs d.agent_name d.task session_id)])
      (fun x hx => hknown x (List.mem_cons_of_mem d hx)) hnd.2 ?_]
    · simp
    · intro x hx p hp
      rcases List.mem_append.1 hp with hp | hp
      · exact hfresh x (List.mem_cons_of_mem d hx) p hp
      · rw [List.mem_singleton.1 hp]
        have hne : d.agent_name ≠ x.agent_name := by
          intro he
          exact hnd.1 (he ▸ List.mem_map_of_mem (fun y => y.agent_name) hx)
        simpa using hne

/-- **C6**: a parallel delegation batch naming `m` known, distinctly named
collaborators yields the delegation announcement, then each branch's
buffered events — exactly `m` collaborator-start and `m`
collaborator-complete events — and then a tool-result event whose value is
the JSON serialization of the `results` mapping, whose key list is exactly
those `m` agent names.  The embedding collects branches in `asyncio.gather`
argument order, which is what makes the result independent of branch
completion order. -/
theorem parallelDelegationFanout (sup : SupCfg) (client : Client)
    (session_id input_text : String) (history : List Message)
    (tc : ToolCall) (ds : List DelegationRec)
    (hIter : 1 ≤ sup.max_iterations)
    (hresp : (client (history ++ [userMessage input_text])).tool_calls = [tc])
    (hname : tc.name = "delegate")
    (hds : tc.input.delegations = some ds)
    (hne : ds ≠ [])
    (hknown : ∀ d ∈ ds, (dictGet sup.collaborators d.agent_name).isSome = true)
    (hnodup : (ds.map (fun d => d.agent_name)).Nodup) :
    ∃ rest,
      supervisorRun sup client session_id input_text history =
        [Step.modelCall sup.name (history ++ [userMessage input_text]),
         .ev (.toolCall tc.name tc.input tc.id),
         .ev (.delegation ds)] ++
        (runBranches sup.collaborators session_id ds).flatMap (fun b => b.2) ++
        [.ev (.toolResult tc.id
          (some (.str (jsonDumpsMap
            (collectResults (runBranches sup.collaborators session_id ds)))))
          none)] ++ rest ∧
      countCollabStarts
        ((runBranches sup.collaborators session_id ds).flatMap (fun b => b.2)) =
        ds.length ∧
      countCollabCompletes
        ((runBranches sup.collaborators session_id ds).flatMap (fun b => b.2)) =
        ds.length ∧
      (collectResults (runBranches sup.collaborators session_id ds)).map Prod.fst =
        ds.map (fun d => d.agent_name) := by
  obtain ⟨k, hk⟩ : ∃ k, sup.max_iterations = k + 1 :=
    ⟨sup.max_iterations - 1, (Nat.succ_pred_eq_of_pos hIter).symm⟩
  have hdel : delegationsTruthy tc.input = true := by
    cases hcase : ds with
    | nil => exact absurd hcase hne
    | cons d rest => rw [delegationsTruthy, hds, hcase]
  have hget : tc.input.delegations.getD [] = ds := by rw [hds]; rfl
  have hcc : (client (history ++ [userMessage input_text])).tool_calls.isEmpty
      = false := by
    rw [hresp]; rfl
  have hproc : processCalls sup client session_id
      (client (history ++ [userMessage input_text])).tool_calls
      ((history ++ [userMessage input_text]) ++
        [assistantToolMessage (client (history ++ [userMessage input_text])).tool_calls])
      ([userMessage input_text] ++
        [assistantToolMessage (client (history ++ [userMessage input_text])).tool_calls]) =
      .cont
        (Step.ev (.delegation ds) ::
          (runBranches sup.collaborators session_id ds).flatMap (fun b => b.2) ++
          [.ev (.toolResult tc.id
            (some (.str (jsonDumpsMap
              (collectResults (runBranches sup.collaborators session_id ds)))))
            none)])
        ((history ++ [userMessage input_text]) ++ [assistantToolMessage [tc]] ++
          [{ role := "tool_result",
             content := some (jsonDumpsMap
               (collectResults (runBranches sup.collaborators session_id ds))),
             tool_call_id := some tc.id }])
        ([userMessage input_text] ++ [assistantToolMessage [tc]] ++
          [{ role := "tool_result",
             content := some (jsonDumpsMap
               (collectResults (runBranches sup.collaborators session_id ds))),
             tool_call_id := some tc.id }]) := by
    rw [hresp]
    rw [processCalls_parallel sup client session_id tc [] _ _ hname hdel]
    rw [hget, processCalls_nil]
    simp [ProcOut.prepend]
  have htrace : supervisorRun sup client session_id input_text history =
      [Step.modelCall sup.name (history ++ [userMessage input_text]),
       .ev (.toolCall tc.name tc.input tc.id),
       .ev (.delegation ds)] ++
      (runBranches sup.collaborators session_id ds).flatMap (fun b => b.2) ++
      [.ev (.toolResult tc.id
        (some (.str (jsonDumpsMap
          (collectResults (runBranches sup.collaborators session_id ds)))))
        none)] ++
      supervisorLoop sup client session_id
        ((history ++ [userMessage input_text]) ++ [assistantToolMessage [tc]] ++
          [{ role := "tool_result",
             content := some (jsonDumpsMap
               (collectResults (runBranches sup.collaborators session_id ds))),
             tool_call_id := some tc.id }])
        ([userMessage input_text] ++ [assistantToolMessage [tc]] ++
          [{ role := "tool_result",
             content := some (jsonDumpsMap
               (collectResults (runBranches sup.collaborators session_id ds))),
             tool_call_id := some tc.id }])
        k := by
    rw [supervisorRun, hk,
      supervisorLoop_cont sup client session_id _ _ k _ _ _ hcc hproc, hresp]
    simp [toolCallSteps]
  refine ⟨_, htrace, (countCollab_branches sup.collaborators session_id ds hknown).1,
    (countCollab_branches sup.collaborators session_id ds hknown).2, ?_⟩
  have hkeys := collectResults_keys_aux sup.collaborators session_id ds []
    hknown hnodup (fun d _ p hp => absurd hp (List.not_mem_nil p))
  simpa [collectResults] using hkeys

/-- Witness for **C6** at a concrete input: the two-branch batch over `fin`
and `ops`. -/
theorem parallelDelegationFanoutWitness :
    countCollabStarts
      ((runBranches supFixture2.collaborators "s" dsPar).flatMap (fun b => b.2)) = 2 ∧
    countCollabCompletes
      ((runBranches supFixture2.collaborators "s" dsPar).flatMap (fun b => b.2)) = 2 ∧
    (collectResults (runBranches supFixture2.collaborators "s" dsPar)).map Prod.fst =
      ["fin", "ops"] := by
  obtain ⟨rest, _, h1, h2, h3⟩ :=
    parallelDelegationFanout supFixture2 supClientPar "s" "q" []
      { id := "d1", name := "delegate", input := { delegations := some dsPar } }
      dsPar (by decide) (by decide) rfl rfl (by decide)
      (by intro d hd; fin_cases hd <;> rfl) (by decide)
  exact ⟨h1, h2, h3⟩

/-- **C8 counterexample**: with the same collaborator (`fin`, answering
`"hi"`) and the same task, a single `{agent_name, task}` delegate call
produces the raw response string `"hi"` as the tool-result value, while a
`delegations` batch containing only that pair produces the JSON-encoded
one-key mapping — two different result values from two different paths. -/
theorem singleVsBatchCounterexample :
    (stepsEvents (supervisorRun supFixture supClientSingle "s" "x" []))[4]? =
      some (.toolResult "d1" (some (.str "hi")) none) ∧
    (stepsEvents (supervisorRun supFixture supClientBatch "s" "x" []))[5]? =
      some (.toolResult "d1" (some (.str "\x7b\"fin\": \"hi\"\x7d")) none) ∧
    (RVal.str "hi" : RVal) ≠ RVal.str "\x7b\"fin\": \"hi\"\x7d" := by
  exact ⟨rfl, rfl, by decide⟩

/-- **C8 amended**: in supervisor mode a single `{agent_name, task}` delegate
call and a `delegations` batch of that one pair run different paths with
different result shapes: both execute the same delegation
(`delegationResponse` appears in both), but the single call's tool-result
value is the collaborator's final response string itself, while the
batch-of-one's tool-result value is the JSON serialization of the one-entry
mapping `agent_name → final_response`; both results carry a null error. -/
theorem singleVsBatchDelegation (sup : SupCfg) (client1 client2 : Client)
    (session_id input_text : String) (history : List Message)
    (id1 id2 agent_name task : String) (c : CollabAgent)
    (hIter : 1 ≤ sup.max_iterations)
    (hmode : (sup.mode == "router") = false)
    (hok : (agent_name == "") = false)
    (hc : dictGet sup.collaborators agent_name = some c)
    (hresp1 : (client1 (history ++ [userMessage input_text])).tool_calls =
      [⟨id1, "delegate", ⟨some agent_name, some task, none⟩⟩])
    (hresp2 : (client2 (history ++ [userMessage input_text])).tool_calls =
      [⟨id2, "delegate", ⟨none, none, some [⟨agent_name, task⟩]⟩⟩]) :
    Step.ev (.toolResult id1
        (some (.str (delegationResponse sup.collaborators agent_name task
          session_id))) none) ∈
      supervisorRun sup client1 session_id input_text history ∧
    Step.ev (.toolResult id2
        (some (.str (jsonDumpsMap [(agent_name,
          delegationResponse sup.collaborators agent_name task session_id)])))
        none) ∈
      supervisorRun sup client2 session_id input_text history := by
  obtain ⟨k, hk⟩ : ∃ k, sup.max_iterations = k + 1 :=
    ⟨sup.max_iterations - 1, (Nat.succ_pred_eq_of_pos hIter).symm⟩
  have hres : collectResults (runBranches sup.collaborators session_id
      [⟨agent_name, task⟩]) =
      [(agent_name, delegationResponse sup.collaborators agent_name task
        session_id)] := by
    rw [collectResults, runBranches]
    simp only [List.map_cons, List.map_nil, List.foldl_cons, List.foldl_nil]
    rw [branchFold_execSingle sup.collaborators agent_name task session_id
      agent_name c hc []]
    rw [dictInsert_of_fresh [] agent_name _
      (fun p hp => absurd hp (List.not_mem_nil p))]
    rfl
  constructor
  · have hcc : (client1 (history ++ [userMessage input_text])).tool_calls.isEmpty
        = false := by rw [hresp1]; rfl
    have hproc := processCalls_single_known sup client1 session_id
      ⟨id1, "delegate", ⟨some agent_name, some task, none⟩⟩ []
      ((history ++ [userMessage input_text]) ++
        [assistantToolMessage [⟨id1, "delegate", ⟨some agent_name, some task, none⟩⟩]])
      ([userMessage input_text] ++
        [assistantToolMessage [⟨id1, "delegate", ⟨some agent_name, some task, none⟩⟩]])
      rfl hmode rfl hok (by simp [hc])
    rw [processCalls_nil] at hproc
    rw [supervisorRun, hk,
      supervisorLoop_cont sup client1 session_id _ _ k _ _ _ hcc
        (by rw [hresp1]; simpa [ProcOut.prepend] using hproc)]
    simp [List.mem_append]
  · have hcc : (client2 (history ++ [userMessage input_text])).tool_calls.isEmpty
        = false := by rw [hresp2]; rfl
    have hproc := processCalls_parallel sup client2 session_id
      ⟨id2, "delegate", ⟨none, none, some [⟨agent_name, task⟩]⟩⟩ []
      ((history ++ [userMessage input_text]) ++
        [assistantToolMessage
          [⟨id2, "delegate", ⟨none, none, some [⟨agent_name, task⟩]⟩⟩]])
      ([userMessage input_text] ++
        [assistantToolMessage
          [⟨id2, "delegate", ⟨none, none, some [⟨agent_name, task⟩]⟩⟩]])
      rfl rfl
    rw [processCalls_nil] at hproc
    dsimp only [Option.getD] at hproc
    rw [hres] at hproc
    rw [supervisorRun, hk,
      supervisorLoop_cont sup client2 session_id _ _ k _ _ _ hcc
        (by rw [hresp2]; simpa [ProcOut.prepend] using hproc)]
    simp [List.mem_append]

/-- Witness for **C8 amended** at a concrete input. -/
theorem singleVsBatchDelegationWitness :
    Step.ev (.toolResult "d1"
        (some (.str (delegationResponse supFixture.collaborators "fin" "t" "s")))
        none) ∈
      supervisorRun supFixture supClientSingle "s" "x" [] ∧
    Step.ev (.toolResult "d1"
        (some (.str (jsonDumpsMap [("fin",
          delegationResponse supFixture.collaborators "fin" "t" "s")])))
        none) ∈
      supervisorRun supFixture supClientBatch "s" "x" [] :=
  singleVsBatchDelegation supFixture supClientSingle supClientBatch "s" "x" []
    "d1" "d1" "fin" "t" collabFin (by decide) rfl (by decide) rfl
    (by decide) (by decide)

/-- **C3 counterexample**: a router-mode supervisor whose (only) model
response carries a batch of two tool calls — a routable delegate call first —
emits both tool-call events but then hands off and returns: zero tool-result
events are ever emitted (the claim requires exactly two before the next
model call), and no further model call happens. -/
theorem toolEventsCounterexample :
    (supClientRouteThenTool ([] ++ [userMessage "x"])).tool_calls.length = 2 ∧
    (toolCallEvents (supervisorRun routerFixture supClientRouteThenTool "s" "x" [])).length = 2 ∧
    toolResultCount (supervisorRun routerFixture supClientRouteThenTool "s" "x" []) = 0 ∧
    countModelCalls "boss"
      (supervisorRun routerFixture supClientRouteThenTool "s" "x" []) = 1 := by
  exact ⟨rfl, rfl, rfl, rfl⟩

/-- An event of a trace is exactly an event-step member of it. -/
theorem mem_stepsEvents (e : Event) (s : List Step) :
    e ∈ stepsEvents s ↔ Step.ev e ∈ s := by
  rw [stepsEvents, List.mem_filterMap]
  constructor
  · rintro ⟨x, hx, hfx⟩
    cases x with
    | ev e2 => cases hfx; exact hx
    | write a m => cases hfx
    | modelCall a m => cases hfx
  · intro hx
    exact ⟨Step.ev e, hx, rfl⟩

/-- A span without tool-call steps trivially keeps calls before results. -/
theorem noTCAR_of_no_calls (l : List Step)
    (h : ∀ x ∈ l, isToolCallStep x = false) :
    noToolCallAfterResult l = true := by
  induction l with
  | nil => rfl
  | cons s rest ih =>
    cases hs : isToolResultStep s with
    | true =>
      rw [noToolCallAfterResult, hs]
      simp only [if_true]
      rw [List.all_eq_true]
      intro x hx
      rw [h x (List.mem_cons_of_mem s hx)]
      rfl
    | false =>
      rw [noToolCallAfterResult, hs]
      simp only [Bool.false_eq_true, if_false]
      exact ih (fun x hx => h x (List.mem_cons_of_mem s hx))

/-- Result-free steps followed by call-free steps keep calls before
results. -/
theorem noTCAR_calls_then_none (a b : List Step)
    (ha : ∀ x ∈ a, isToolResultStep x = false)
    (hb : ∀ x ∈ b, isToolCallStep x = false) :
    noToolCallAfterResult (a ++ b) = true := by
  induction a with
  | nil => exact noTCAR_of_no_calls b hb
  | cons s a2 ih =>
    rw [List.cons_append, noToolCallAfterResult,
      ha s (List.mem_cons_self s a2)]
    simp only [Bool.false_eq_true, if_false]
    exact ih (fun x hx => ha x (List.mem_cons_of_mem s hx))

@[simp] theorem toolCallEvents_append (a b : List Step) :
    toolCallEvents (a ++ b) = toolCallEvents a ++ toolCallEvents b := by
  simp [toolCallEvents, List.filter_append]

@[simp] theorem toolCallEvents_toolCallSteps (tcs : List ToolCall) :
    toolCallEvents (toolCallSteps tcs) =
      tcs.map fun tc => Event.toolCall tc.name tc.input tc.id := by
  induction tcs with
  | nil => rfl
  | cons t ts ih =>
    rw [toolCallSteps, List.map_cons, toolCallEvents, stepsEvents_cons_ev,
      List.filter_cons_of_pos (by rfl), List.map_cons, ← toolCallEvents,
      ← toolCallSteps, ih]

@[simp] theorem toolCallEvents_toolResultSteps
    (rs : List (String × Option RVal × Option String)) :
    toolCallEvents (toolResultSteps rs) = [] := by
  induction rs with
  | nil => rfl
  | cons r rs ih => simpa [toolResultSteps, toolCallEvents] using ih

/-- Steps without tool-call steps announce no tool-call events. -/
theorem toolCallEvents_eq_nil (s : List Step)
    (h : ∀ x ∈ s, isToolCallStep x = false) :
    toolCallEvents s = [] := by
  rw [toolCallEvents, List.filter_eq_nil_iff]
  intro e he
  have hts := h _ ((mem_stepsEvents e s).1 he)
  cases e <;> simp_all [isToolCallStep]

/-- A tool-call step is never a tool-result step. -/
theorem toolCallSteps_not_result (tcs : List ToolCall) :
    ∀ x ∈ toolCallSteps tcs, isToolResultStep x = false := by
  intro x hx
  obtain ⟨tc, _, rfl⟩ := List.mem_map.1 hx
  rfl

/-- A tool-result step is never a tool-call step. -/
theorem toolResultSteps_not_call (rs : List (String × Option RVal × Option String)) :
    ∀ x ∈ toolResultSteps rs, isToolCallStep x = false := by
  intro x hx
  obtain ⟨r, _, rfl⟩ := List.mem_map.1 hx
  rfl

@[simp] theorem toolResultCount_nil : toolResultCount [] = 0 := rfl

@[simp] theorem toolResultCount_append (a b : List Step) :
    toolResultCount (a ++ b) = toolResultCount a + toolResultCount b := by
  simp [toolResultCount, List.countP_append]

@[simp] theorem toolResultCount_toolCallSteps (tcs : List ToolCall) :
    toolResultCount (toolCallSteps tcs) = 0 := by
  rw [toolResultCount, List.countP_eq_zero]
  intro a ha
  simp [toolCallSteps_not_result tcs a ha]

@[simp] theorem toolResultCount_toolResultSteps
    (rs : List (String × Option RVal × Option String)) :
    toolResultCount (toolResultSteps rs) = rs.length := by
  have h : ∀ a ∈ toolResultSteps rs, isToolResultStep a = true := by
    intro a ha
    obtain ⟨r, _, rfl⟩ := List.mem_map.1 ha
    rfl
  rw [toolResultCount, List.countP_eq_length.2 h, toolResultSteps, List.length_map]

/-- Yielded event steps are never model calls. -/
theorem toolCallSteps_not_mc (who : String) (tcs : List ToolCall) :
    ∀ x ∈ toolCallSteps tcs, isOwnModelCall who x = false := by
  intro x hx
  obtain ⟨tc, _, rfl⟩ := List.mem_map.1 hx
  rfl

/-- Yielded tool-result steps are never model calls. -/
theorem toolResultSteps_not_mc (who : String)
    (rs : List (String × Option RVal × Option String)) :
    ∀ x ∈ toolResultSteps rs, isOwnModelCall who x = false := by
  intro x hx
  obtain ⟨r, _, rfl⟩ := List.mem_map.1 hx
  rfl

/-- Helper: every agent-loop trace satisfies the per-iteration tool-event
contract `SegsOK`. -/
theorem agentLoop_segsOK (name : String) (client : Client)
    (actions : List Action) (maxIter : Nat) (session_id : String) :
    ∀ (fuel : Nat) (m n : List Message),
      SegsOK name client
        (agentLoop name client actions maxIter session_id m n fuel) := by
  intro fuel
  induction fuel with
  | zero =>
    intro m n
    rw [agentLoop_zero]
    exact SegsOK.stop _
      (by intro s hs; rw [List.mem_singleton.1 hs]; rfl)
      (by intro s hs; rw [List.mem_singleton.1 hs]; rfl)
      (by intro s hs; rw [List.mem_singleton.1 hs]; rfl)
  | succ k ih =>
    intro m n
    cases h2 : (client m).tool_calls.isEmpty with
    | false =>
      rw [agentLoop_tools name client actions maxIter session_id m n k h2]
      refine SegsOK.iter m _ _ ?_ ?_ ?_ ?_ (ih _ _)
      · intro s hs
        rcases List.mem_append.1 hs with hs | hs
        · exact toolCallSteps_not_mc name _ s hs
        · exact toolResultSteps_not_mc name _ s hs
      · rw [toolCallEvents_append, toolCallEvents_toolCallSteps,
          toolCallEvents_toolResultSteps, List.append_nil, expectedToolCallEvents]
      · rw [toolResultCount_append, toolResultCount_toolCallSteps,
          toolResultCount_toolResultSteps, List.length_map]
        simp
      · exact noTCAR_calls_then_none _ _ (toolCallSteps_not_result _)
          (toolResultSteps_not_call _)
    | true =>
      cases h1 : pyStrTruthy (client m).text with
      | true =>
        rw [agentLoop_completion name client actions maxIter session_id m n k h1
          (List.isEmpty_iff.1 h2)]
        have h : SegsOK name client
            (Step.modelCall name m ::
              ([Step.write session_id
                  (n ++ [{ role := "assistant",
                           content := some ((client m).text.getD "") }]),
                Step.ev (.completion ((client m).text.getD ""))] ++ [])) :=
          SegsOK.iter m _ _
          (by
            intro s hs
            rcases List.mem_cons.1 hs with rfl | hs
            · rfl
            · rw [List.mem_singleton.1 hs]; rfl)
          (by rw [expectedToolCallEvents, List.isEmpty_iff.1 h2]; rfl)
          (by rw [List.isEmpty_iff.1 h2]; rfl)
          rfl
          (SegsOK.stop [] (by simp) (by simp) (by simp))
        simpa using h
      | false =>
        rw [agentLoop_degenerate_step name client actions maxIter session_id m n k h1
          (List.isEmpty_iff.1 h2)]
        have h : SegsOK name client
            (Step.modelCall name m ::
              ([] ++ agentLoop name client actions maxIter session_id m n k)) :=
          SegsOK.iter m _ _
          (by simp)
          (by rw [expectedToolCallEvents, List.isEmpty_iff.1 h2]; rfl)
          (by rw [List.isEmpty_iff.1 h2]; rfl)
          rfl
          (ih m n)
        simpa using h

/-- Unfolding `supervisorLoop` at exhausted fuel. -/
theorem supervisorLoop_zero (sup : SupCfg) (client : Client) (session_id : String)
    (m n : List Message) :
    supervisorLoop sup client session_id m n 0 =
      [.ev (.error (maxIterationsMessage sup.max_iterations) false)] := rfl

/-- Unfolding `supervisorLoop` on a text-only response. -/
theorem supervisorLoop_completion (sup : SupCfg) (client : Client)
    (session_id : String) (m n : List Message) (k : Nat)
    (hT : pyStrTruthy (client m).text = true)
    (hE : (client m).tool_calls = []) :
    supervisorLoop sup client session_id m n (k + 1) =
      [.modelCall sup.name m,
       .write session_id
         (n ++ [{ role := "assistant", content := some ((client m).text.getD "") }]),
       .ev (.completion ((client m).text.getD ""))] := by
  rw [supervisorLoop]
  simp [hT, hE]

/-- Unfolding `supervisorLoop` on a degenerate response. -/
theorem supervisorLoop_degenerate_step (sup : SupCfg) (client : Client)
    (session_id : String) (m n : List Message) (k : Nat)
    (hT : pyStrTruthy (client m).text = false)
    (hE : (client m).tool_calls = []) :
    supervisorLoop sup client session_id m n (k + 1) =
      Step.modelCall sup.name m ::
        supervisorLoop sup client session_id m n k := by
  rw [supervisorLoop]
  simp [hT, hE]

/-- A `dictGet` hit is a member of the collaborator list. -/
theorem dictGet_mem (cs : List CollabAgent) (n : String) (c : CollabAgent)
    (h : dictGet cs n = some c) : c ∈ cs :=
  List.mem_reverse.1 (List.mem_of_find?_eq_some h)

/-- A delegation branch yields no bare tool-call step. -/
theorem execSingle_not_call (cs : List CollabAgent) (nm task sid : String) :
    ∀ x ∈ execSingleDelegation cs nm task sid, isToolCallStep x = false := by
  intro x hx
  cases hc : dictGet cs nm with
  | none =>
    rw [execSingleDelegation_unknown cs nm task sid hc] at hx
    exact absurd hx (List.not_mem_nil x)
  | some c =>
    rw [execSingleDelegation_known cs nm task sid c hc] at hx
    rcases List.mem_cons.1 hx with rfl | hx
    · rfl
    rcases List.mem_append.1 hx with hx | hx
    · rw [wrapSteps] at hx
      obtain ⟨y, _, rfl⟩ := List.mem_map.1 hx
      cases y <;> rfl
    · rw [List.mem_singleton.1 hx]; rfl

/-- A delegation branch yields no bare tool-result step. -/
theorem execSingle_not_result (cs : List CollabAgent) (nm task sid : String) :
    ∀ x ∈ execSingleDelegation cs nm task sid, isToolResultStep x = false := by
  intro x hx
  cases hc : dictGet cs nm with
  | none =>
    rw [execSingleDelegation_unknown cs nm task sid hc] at hx
    exact absurd hx (List.not_mem_nil x)
  | some c =>
    rw [execSingleDelegation_known cs nm task sid c hc] at hx
    rcases List.mem_cons.1 hx with rfl | hx
    · rfl
    rcases List.mem_append.1 hx with hx | hx
    · rw [wrapSteps] at hx
      obtain ⟨y, _, rfl⟩ := List.mem_map.1 hx
      cases y <;> rfl
    · rw [List.mem_singleton.1 hx]; rfl

/-- A delegation branch contains no model call attributed to the supervisor
when no collaborator shares the supervisor's name. -/
theorem execSingle_no_own_mc (cs : List CollabAgent) (nm task sid who : String)
    (hcols : ∀ c2 ∈ cs, (c2.name == who) = false) :
    ∀ x ∈ execSingleDelegation cs nm task sid, isOwnModelCall who x = false := by
  intro x hx
  cases hc : dictGet cs nm with
  | none =>
    rw [execSingleDelegation_unknown cs nm task sid hc] at hx
    exact absurd hx (List.not_mem_nil x)
  | some c =>
    rw [execSingleDelegation_known cs nm task sid c hc] at hx
    rcases List.mem_cons.1 hx with rfl | hx
    · rfl
    rcases List.mem_append.1 hx with hx | hx
    · rw [wrapSteps] at hx
      obtain ⟨y, hy, rfl⟩ := List.mem_map.1 hx
      rcases agentLoop_mem_shape c.name c.client c.actions c.max_iterations
        (sid ++ ":" ++ nm) c.max_iterations _ _ y hy with
        ⟨e, rfl⟩ | ⟨ms, rfl⟩ | ⟨ms, rfl⟩
      · rfl
      · rfl
      · simpa [isOwnModelCall] using hcols c (dictGet_mem cs nm c hc)
    · rw [List.mem_singleton.1 hx]; rfl

/-- Unfolding `processCalls` on a single-pair delegate call with an unknown
or empty collaborator name, outside router mode. -/
theorem processCalls_single_unknown (sup : SupCfg) (client : Client)
    (session_id : String) (tc : ToolCall) (rest : List ToolCall)
    (m n : List Message)
    (hname : tc.name = "delegate")
    (hroute : (sup.mode == "router") = false)
    (hdel : delegationsTruthy tc.input = false)
    (hbad : ((tc.input.agent_name.getD "" == "") ||
      (dictGet sup.collaborators (tc.input.agent_name.getD "")).isNone) = true) :
    processCalls sup client session_id (tc :: rest) m n =
      ProcOut.prepend
        [.ev (.toolResult tc.id none
          (some (unknownAgentMessage sup.collaborators (tc.input.agent_name.getD ""))))]
        (processCalls sup client session_id rest
          (m ++ [{ role := "tool_result",
                   content := some (unknownAgentMessage sup.collaborators
                     (tc.input.agent_name.getD "")),
                   tool_call_id := some tc.id }])
          (n ++ [{ role := "tool_result",
                   content := some (unknownAgentMessage sup.collaborators
                     (tc.input.agent_name.getD "")),
                   tool_call_id := some tc.id }])) := by
  rw [processCalls]
  simp [hname, hroute, hdel, hbad]

/-- Unfolding `processCalls` on an ordinary (non-delegate) tool call. -/
theorem processCalls_nondelegate (sup : SupCfg) (client : Client)
    (session_id : String) (tc : ToolCall) (rest : List ToolCall)
    (m n : List Message)
    (hname : (tc.name == "delegate") = false) :
    processCalls sup client session_id (tc :: rest) m n =
      ProcOut.prepend
        [.ev (.toolResult (executeTool sup.actions tc).1
          (executeTool sup.actions tc).2.1 (executeTool sup.actions tc).2.2)]
        (processCalls sup client session_id rest
          (m ++ [toolResultMessage (executeTool sup.actions tc)])
          (n ++ [toolResultMessage (executeTool sup.actions tc)])) := by
  rw [processCalls]
  simp [hname]

/-- Parallel branches yield no bare tool-call step. -/
theorem branches_not_call (cs : List CollabAgent) (sid : String)
    (ds : List DelegationRec) :
    ∀ x ∈ (runBranches cs sid ds).flatMap (fun b => b.2),
      isToolCallStep x = false := by
  intro x hx
  rw [runBranches] at hx
  obtain ⟨b, hb, hxb⟩ := List.mem_flatMap.1 hx
  obtain ⟨d, _, rfl⟩ := List.mem_map.1 hb
  exact execSingle_not_call cs d.agent_name d.task sid x hxb

/-- Parallel branches yield no bare tool-result step. -/
theorem branches_not_result (cs : List CollabAgent) (sid : String)
    (ds : List DelegationRec) :
    ∀ x ∈ (runBranches cs sid ds).flatMap (fun b => b.2),
      isToolResultStep x = false := by
  intro x hx
  rw [runBranches] at hx
  obtain ⟨b, hb, hxb⟩ := List.mem_flatMap.1 hx
  obtain ⟨d, _, rfl⟩ := List.mem_map.1 hb
  exact execSingle_not_result cs d.agent_name d.task sid x hxb

/-- Parallel branches contain no supervisor-attributed model call when no
collaborator shares the supervisor's name. -/
theorem branches_no_own_mc (cs : List CollabAgent) (sid who : String)
    (ds : List DelegationRec)
    (hcols : ∀ c2 ∈ cs, (c2.name == who) = false) :
    ∀ x ∈ (runBranches cs sid ds).flatMap (fun b => b.2),
      isOwnModelCall who x = false := by
  intro x hx
  rw [runBranches] at hx
  obtain ⟨b, hb, hxb⟩ := List.mem_flatMap.1 hx
  obtain ⟨d, _, rfl⟩ := List.mem_map.1 hb
  exact execSingle_no_own_mc cs d.agent_name d.task sid who hcols x hxb

/-- Outside router mode, processing a tool-call batch always continues the
loop, attributes no model call to the supervisor, announces no tool call,
and yields exactly one tool-result step per call of the batch. -/
theorem processCalls_cont_flags (sup : SupCfg) (client : Client)
    (session_id : String)
    (hroute : (sup.mode == "router") = false)
    (hcols : ∀ c2 ∈ sup.collaborators, (c2.name == sup.name) = false) :
    ∀ (tcs : List ToolCall) (m n : List Message),
      ∃ s m2 n2,
        processCalls sup client session_id tcs m n = .cont s m2 n2 ∧
        (∀ x ∈ s, isOwnModelCall sup.name x = false) ∧
        (∀ x ∈ s, isToolCallStep x = false) ∧
        toolResultCount s = tcs.length := by
  intro tcs
  induction tcs with
  | nil =>
    intro m n
    exact ⟨[], m, n, rfl, by simp, by simp, rfl⟩
  | cons tc rest ih =>
    intro m n
    by_cases hname : tc.name = "delegate"
    · by_cases hdel : delegationsTruthy tc.input = true
      · rw [processCalls_parallel sup client session_id tc rest m n hname hdel]
        obtain ⟨s, m2, n2, hp, hmc, hcall, hcount⟩ := ih _ _
        rw [hp]
        simp only [ProcOut.prepend]
        refine ⟨_, m2, n2, rfl, ?_, ?_, ?_⟩
        · intro x hx
          rcases List.mem_append.1 hx with hx | hx
          · rcases List.mem_cons.1 hx with rfl | hx
            · rfl
            rcases List.mem_append.1 hx with hx | hx
            · exact branches_no_own_mc sup.collaborators session_id sup.name _
                hcols x hx
            · rw [List.mem_singleton.1 hx]; rfl
          · exact hmc x hx
        · intro x hx
          rcases List.mem_append.1 hx with hx | hx
          · rcases List.mem_cons.1 hx with rfl | hx
            · rfl
            rcases List.mem_append.1 hx with hx | hx
            · exact branches_not_call sup.collaborators session_id _ x hx
            · rw [List.mem_singleton.1 hx]; rfl
          · exact hcall x hx
        · have hb : List.countP isToolResultStep
              ((runBranches sup.collaborators session_id
                (tc.input.delegations.getD [])).flatMap (fun b => b.2)) = 0 := by
            rw [List.countP_eq_zero]
            intro a ha
            simp [branches_not_result sup.collaborators session_id _ a ha]
          simp only [toolResultCount, List.cons_append, List.append_assoc,
            List.countP_cons, List.countP_append, List.countP_nil] at hcount ⊢
          simp only [hb, hcount, isToolResultStep, List.length_cons]
          first
            | omega
            | (simp only [if_true, Bool.false_eq_true, if_false]; omega)
      · have hdelf : delegationsTruthy tc.input = false := by
          simpa using hdel
        by_cases hbad : ((tc.input.agent_name.getD "" == "") ||
            (dictGet sup.collaborators (tc.input.agent_name.getD "")).isNone) = true
        · rw [processCalls_single_unknown sup client session_id tc rest m n
            hname hroute hdelf hbad]
          obtain ⟨s, m2, n2, hp, hmc, hcall, hcount⟩ := ih _ _
          rw [hp]
          simp only [ProcOut.prepend]
          refine ⟨_, m2, n2, rfl, ?_, ?_, ?_⟩
          · intro x hx
            rcases List.mem_append.1 hx with hx | hx
            · rw [List.mem_singleton.1 hx]; rfl
            · exact hmc x hx
          · intro x hx
            rcases List.mem_append.1 hx with hx | hx
            · rw [List.mem_singleton.1 hx]; rfl
            · exact hcall x hx
          · simp only [toolResultCount, List.cons_append, List.append_assoc,
              List.countP_cons, List.countP_append, List.countP_nil] at hcount ⊢
            simp only [hcount, isToolResultStep, List.length_cons]
            first
              | omega
              | (simp only [if_true, Bool.false_eq_true, if_false]; omega)
        · have hbad2 : ((tc.input.agent_name.getD "" == "") = false) ∧
              ((dictGet sup.collaborators (tc.input.agent_name.getD "")).isNone
                = false) := by
            rcases Bool.or_eq_false_iff.1 (Bool.eq_false_iff.2 hbad) with ⟨h1, h2⟩
            exact ⟨h1, h2⟩
          rw [processCalls_single_known sup client session_id tc rest m n
            hname hroute hdelf hbad2.1 hbad2.2]
          obtain ⟨s, m2, n2, hp, hmc, hcall, hcount⟩ := ih _ _
          rw [hp]
          simp only [ProcOut.prepend]
          refine ⟨_, m2, n2, rfl, ?_, ?_, ?_⟩
          · intro x hx
            rcases List.mem_append.1 hx with hx | hx
            · rcases List.mem_append.1 hx with hx | hx
              · exact execSingle_no_own_mc sup.collaborators _ _ session_id
                  sup.name hcols x hx
              · rw [List.mem_singleton.1 hx]; rfl
            · exact hmc x hx
          · intro x hx
            rcases List.mem_append.1 hx with hx | hx
            · rcases List.mem_append.1 hx with hx | hx
              · exact execSingle_not_call sup.collaborators _ _ session_id x hx
              · rw [List.mem_singleton.1 hx]; rfl
            · exact hcall x hx
          · have he : toolResultCount (execSingleDelegation sup.collaborators
                (tc.input.agent_name.getD "") (tc.input.task.getD "")
                session_id) = 0 := by
              rw [toolResultCount, List.countP_eq_zero]
              intro a ha
              simp [execSingle_not_result sup.collaborators _ _ session_id a ha]
            simp only [toolResultCount, List.cons_append, List.append_assoc,
              List.countP_cons, List.countP_append, List.countP_nil] at he hcount ⊢
            simp only [he, hcount, isToolResultStep, List.length_cons]
            first
              | omega
              | (simp only [if_true, Bool.false_eq_true, if_false]; omega)
    · rw [processCalls_nondelegate sup client session_id tc rest m n
        (by simpa using hname)]
      obtain ⟨s, m2, n2, hp, hmc, hcall, hcount⟩ := ih _ _
      rw [hp]
      simp only [ProcOut.prepend]
      refine ⟨_, m2, n2, rfl, ?_, ?_, ?_⟩
      · intro x hx
        rcases List.mem_append.1 hx with hx | hx
        · rw [List.mem_singleton.1 hx]; rfl
        · exact hmc x hx
      · intro x hx
        rcases List.mem_append.1 hx with hx | hx
        · rw [List.mem_singleton.1 hx]; rfl
        · exact hcall x hx
      · simp only [toolResultCount, List.cons_append, List.append_assoc,
          List.countP_cons, List.countP_append, List.countP_nil] at hcount ⊢
        simp only [hcount, isToolResultStep, List.length_cons]
        first
          | omega
          | (simp only [if_true, Bool.false_eq_true, if_false]; omega)

/-- Helper: in supervisor mode every supervisor-loop trace satisfies the
per-iteration tool-event contract. -/
theorem supervisorLoop_segsOK (sup : SupCfg) (client : Client)
    (session_id : String)
    (hroute : (sup.mode == "router") = false)
    (hcols : ∀ c2 ∈ sup.collaborators, (c2.name == sup.name) = false) :
    ∀ (fuel : Nat) (m n : List Message),
      SegsOK sup.name client (supervisorLoop sup client session_id m n fuel) := by
  intro fuel
  induction fuel with
  | zero =>
    intro m n
    rw [supervisorLoop_zero]
    exact SegsOK.stop _
      (by intro s hs; rw [List.mem_singleton.1 hs]; rfl)
      (by intro s hs; rw [List.mem_singleton.1 hs]; rfl)
      (by intro s hs; rw [List.mem_singleton.1 hs]; rfl)
  | succ k ih =>
    intro m n
    cases h2 : (client m).tool_calls.isEmpty with
    | false =>
      obtain ⟨s, m2, n2, hp, hmc, hcall, hcount⟩ :=
        processCalls_cont_flags sup client session_id hroute hcols
          (client m).tool_calls
          (m ++ [assistantToolMessage (client m).tool_calls])
          (n ++ [assistantToolMessage (client m).tool_calls])
      rw [supervisorLoop_cont sup client session_id m n k s m2 n2 h2 hp]
      refine SegsOK.iter m (toolCallSteps (client m).tool_calls ++ s) _
        ?_ ?_ ?_ ?_ (ih m2 n2)
      · intro x hx
        rcases List.mem_append.1 hx with hx | hx
        · exact toolCallSteps_not_mc sup.name _ x hx
        · exact hmc x hx
      · rw [toolCallEvents_append, toolCallEvents_toolCallSteps,
          toolCallEvents_eq_nil s hcall, List.append_nil, expectedToolCallEvents]
      · rw [toolResultCount_append, toolResultCount_toolCallSteps, hcount]
        simp
      · exact noTCAR_calls_then_none _ _ (toolCallSteps_not_result _) hcall
    | true =>
      cases h1 : pyStrTruthy (client m).text with
      | true =>
        rw [supervisorLoop_completion sup client session_id m n k h1
          (List.isEmpty_iff.1 h2)]
        have h : SegsOK sup.name client
            (Step.modelCall sup.name m ::
              ([Step.write session_id
                  (n ++ [{ role := "assistant",
                           content := some ((client m).text.getD "") }]),
                Step.ev (.completion ((client m).text.getD ""))] ++ [])) :=
          SegsOK.iter m _ _
          (by
            intro s hs
            rcases List.mem_cons.1 hs with rfl | hs
            · rfl
            · rw [List.mem_singleton.1 hs]; rfl)
          (by rw [expectedToolCallEvents, List.isEmpty_iff.1 h2]; rfl)
          (by rw [List.isEmpty_iff.1 h2]; rfl)
          rfl
          (SegsOK.stop [] (by simp) (by simp) (by simp))
        simpa using h
      | false =>
        rw [supervisorLoop_degenerate_step sup client session_id m n k h1
          (List.isEmpty_iff.1 h2)]
        have h : SegsOK sup.name client
            (Step.modelCall sup.name m ::
              ([] ++ supervisorLoop sup client session_id m n k)) :=
          SegsOK.iter m _ _
          (by simp)
          (by rw [expectedToolCallEvents, List.isEmpty_iff.1 h2]; rfl)
          (by rw [List.isEmpty_iff.1 h2]; rfl)
          rfl
          (ih m n)
        simpa using h

/-- **C3 amended**: for `Agent.invoke` every model-call segment of the trace
carries exactly the announced `k` tool-call events in response order, all
before any tool-result event, and exactly `k` tool-result events before the
next model call (`SegsOK`); `Supervisor.invoke` satisfies the same contract
in supervisor mode.  (In router mode a successful handoff ends the
invocation directly after the routed collaborator completes, so tool calls
after the delegate call in the same batch get no tool-result event — the
counterexample.) -/
theorem toolEventsPerIteration :
    (∀ (name : String) (client : Client) (actions : List Action) (maxIter : Nat)
       (session_id input_text : String) (history : List Message),
       SegsOK name client
         (agentRun name client actions maxIter session_id input_text history)) ∧
    (∀ (sup : SupCfg) (client : Client) (session_id input_text : String)
       (history : List Message),
       sup.mode = "supervisor" →
       (∀ c2 ∈ sup.collaborators, (c2.name == sup.name) = false) →
       SegsOK sup.name client
         (supervisorRun sup client session_id input_text history)) := by
  constructor
  · intro name client actions maxIter session_id input_text history
    exact agentLoop_segsOK name client actions maxIter session_id maxIter _ _
  · intro sup client session_id input_text history hmode hcols
    exact supervisorLoop_segsOK sup client session_id (by simp [hmode]) hcols
      sup.max_iterations _ _

/-- Witness for **C3 amended** at concrete inputs. -/
theorem toolEventsPerIterationWitness :
    SegsOK "a" hiClient (agentRun "a" hiClient [] 10 "s" "q" []) ∧
    (supFixture2.mode = "supervisor" ∧
      SegsOK "boss" supClientPar
        (supervisorRun supFixture2 supClientPar "s" "q" [])) :=
  ⟨toolEventsPerIteration.1 "a" hiClient [] 10 "s" "q" [],
    rfl,
    toolEventsPerIteration.2 supFixture2 supClientPar "s" "q" [] rfl
      (by intro c2 hc2; fin_cases hc2 <;> rfl)⟩

end Bedsheet
